import Mathlib

/-!
Verification of the Hypeon attribution / MMM / reconciliation engine.

The Python sources under packages/attribution, packages/metrics and
packages/mmm are embedded shallowly: database rows become structures,
a database session becomes an explicit record of row lists, float
arithmetic becomes exact rational arithmetic, and fallible calls return
Except.  Components whose source files are not part of the repository
snapshot (fractional_allocate, markov_credits, the adstock/saturation
transforms, fit_pipeline, the saturation response used by the report)
are modelled from the specification, as marked in their doc comments;
where only their shape matters they are taken as parameters.
-/

namespace Hypeon

/-! ## Generic helpers -/

/-- Absolute value on rationals, written with an if so that it evaluates
by kernel reduction (models Python abs on the numbers involved). -/
def qabs (q : ℚ) : ℚ := if q < 0 then -q else q

/-- Python str.strip: drop whitespace from both ends. -/
def pyStrip (s : String) : String :=
  ⟨((s.data.dropWhile Char.isWhitespace).reverse.dropWhile Char.isWhitespace).reverse⟩

/-- Lookup in an association list with string keys (Python dict.get). -/
def lookupQ (l : List (String × ℚ)) (k : String) : Option ℚ :=
  (l.find? (fun p => p.1 = k)).map (fun p => p.2)

/-- Keep the first occurrence of each element (Python dict / pandas
unique insertion order), carrying the set of keys already seen. -/
def firstDedupGo (seen : List String) : List String → List String
  | [] => []
  | x :: xs => if x ∈ seen then firstDedupGo seen xs else x :: firstDedupGo (x :: seen) xs

/-- First-occurrence deduplication of a list of strings. -/
def firstDedup (l : List String) : List String := firstDedupGo [] l

/-! ## Data model (packages/shared/src/models.py) -/

/-- A raw order row (RawShopifyOrders / RawWooCommerceOrders): the fields
the attribution and MMM code reads.  Dates are day numbers. -/
structure Order where
  order_id : String
  order_date : ℕ
  revenue : ℚ
  net_revenue : Option ℚ
  click_id : Option String
deriving DecidableEq

/-- A raw ad-click row (RawAdClicks). -/
structure AdClick where
  click_id : String
  date : ℕ
  campaign_id : String
  campaign_name : Option String
  channel : String
deriving DecidableEq

/-- A raw per-channel ad-spend row (RawMetaAds etc.): the date and spend
fields the engine reads. -/
structure SpendRec where
  date : ℕ
  spend : ℚ
deriving DecidableEq

/-- An attribution_events row, in source column order. -/
structure AttributionEvent where
  order_id : String
  channel : String
  campaign_id : Option String
  cost_center : Option String
  weight : ℚ
  allocated_revenue : ℚ
  event_date : ℕ
  run_id : String
deriving DecidableEq

/-- An mmm_results row as the reconciliation report reads it. -/
structure MMMRow where
  run_id : String
  created_at : ℕ
  channel : String
  coefficient : ℚ
deriving DecidableEq

/-- The database session: all tables the embedded functions touch. -/
structure Session where
  shopify : List Order
  woo : List Order
  adClicks : List AdClick
  metaAds : List SpendRec
  googleAds : List SpendRec
  bingAds : List SpendRec
  pinterestAds : List SpendRec
  events : List AttributionEvent
  mmmRows : List MMMRow
deriving DecidableEq

/-- Order revenue: net revenue when present, else gross revenue. -/
def orderRevenue (o : Order) : ℚ := o.net_revenue.getD o.revenue

/-- Shopify orders then WooCommerce orders inside the date window, the
iteration order shared by the click-ID pass and the orders dataframe. -/
def windowOrders (s : Session) (start e : ℕ) : List Order :=
  s.shopify.filter (fun o => start ≤ o.order_date ∧ o.order_date ≤ e)
    ++ s.woo.filter (fun o => start ≤ o.order_date ∧ o.order_date ≤ e)

/-! ## Click-ID attribution (packages/attribution/src/click_id_attribution.py) -/

/-- Ad clicks inside the date window. -/
def clicksWindow (s : Session) (start e : ℕ) : List AdClick :=
  s.adClicks.filter (fun c => start ≤ c.date ∧ c.date ≤ e)

/-- The stripped click identifier of an order, none when the field is
null or strips to the empty string (the two continue guards). -/
def clickKey (o : Order) : Option String :=
  match o.click_id with
  | none => none
  | some c => let t := pyStrip c; if t = "" then none else some t

/-- Dict lookup over the in-window clicks keyed by click_id; a later row
with the same key overrides an earlier one, as in the dict comprehension. -/
def lookupClick (clicks : List AdClick) (k : String) :
    Option (String × String × Option String) :=
  (clicks.reverse.find? (fun c => c.click_id = k)).map
    (fun c => (c.channel, c.campaign_id, c.campaign_name))

/-- The attribution event the click-ID pass writes for one order, none
when the order is skipped (no usable click_id, no matching click, or
revenue at most zero). -/
def clickEventOf (clicks : List AdClick) (runId : String) (o : Order) :
    Option AttributionEvent :=
  match clickKey o with
  | none => none
  | some k =>
    match lookupClick clicks k with
    | none => none
    | some (ch, cid, cname) =>
      let rev := orderRevenue o
      if rev ≤ 0 then none
      else some ⟨o.order_id, ch, some cid, cname, 1, rev, o.order_date, runId⟩

/-- Output of run_click_id_attribution: rows written, order ids consumed,
and the attribution_events rows themselves. -/
structure ClickOut where
  n : ℕ
  consumed : List String
  events : List AttributionEvent
deriving DecidableEq

/-- run_click_id_attribution: for each in-window order with a usable
click identifier whose click resolves and whose revenue is positive,
write one weight-1.0 event crediting that click's channel and campaign. -/
def run_click_id_attribution (s : Session) (runId : String) (start e : ℕ) :
    ClickOut :=
  let clicks := clicksWindow s start e
  if clicks = [] then ⟨0, [], []⟩
  else
    let evs := (windowOrders s start e).filterMap (clickEventOf clicks runId)
    ⟨evs.length, evs.map (fun ev => ev.order_id), evs⟩

/-! ## Fractional / Markov pass (packages/attribution/src/runner.py) -/

/-- A row of the orders dataframe built by the runner. -/
structure ORow where
  order_id : String
  order_date : ℕ
  revenue : ℚ
deriving DecidableEq

/-- The orders dataframe: in-window Shopify plus WooCommerce orders with
the excluded order ids (already click-ID attributed) dropped. -/
def ordersDf (s : Session) (start e : ℕ) (exclude : List String) : List ORow :=
  ((windowOrders s start e).filter (fun o => o.order_id ∉ exclude)).map
    (fun o => ⟨o.order_id, o.order_date, orderRevenue o⟩)

/-- A row of the daily spend-by-channel dataframe. -/
structure SpendRow where
  date : ℕ
  channel : String
  spend : ℚ
deriving DecidableEq

/-- Daily spend rows tagged meta, google, bing, pinterest, restricted to
the window, in the source's source-by-source order. -/
def dailySpendByChannel (s : Session) (start e : ℕ) : List SpendRow :=
  (s.metaAds.filter (fun r => start ≤ r.date ∧ r.date ≤ e)).map
      (fun r => ⟨r.date, "meta", r.spend⟩)
    ++ (s.googleAds.filter (fun r => start ≤ r.date ∧ r.date ≤ e)).map
      (fun r => ⟨r.date, "google", r.spend⟩)
    ++ (s.bingAds.filter (fun r => start ≤ r.date ∧ r.date ≤ e)).map
      (fun r => ⟨r.date, "bing", r.spend⟩)
    ++ (s.pinterestAds.filter (fun r => start ≤ r.date ∧ r.date ≤ e)).map
      (fun r => ⟨r.date, "pinterest", r.spend⟩)

/-- The default channel set. -/
def defaultChannels : List String := ["meta", "google", "bing", "pinterest"]

/-- Total spend of one channel over the spend dataframe. -/
def spendOf (ds : List SpendRow) (c : String) : ℚ :=
  ((ds.filter (fun r => r.channel = c)).map (fun r => r.spend)).sum

/-- Channels present in the spend dataframe, first occurrence first. -/
def channelsOf (ds : List SpendRow) : List String :=
  firstDedup (ds.map (fun r => r.channel))

/-- Modelled from the spec: the channel-weight policy of
fractional_allocate (packages/attribution/src/allocator.py is not among
the repository's files).  Spec 4.2: explicit weights, when supplied, are
used directly, normalized to sum 1 across the channels with nonzero
spend; otherwise each channel's weight is its share of total window
spend; if no channel has any spend, allocation falls back to an equal
split across the default channel set.  A supplied weight vector whose
restriction to the nonzero-spend channels totals zero has no
normalization, so it falls back to the spend-derived weights, keeping
the spec's sum-to-one guarantee. -/
def equalSplit : List (String × ℚ) :=
  defaultChannels.map (fun c => (c, (1 : ℚ)/4))

/-- The spend-derived weight vector of the modelled allocator: each
channel's share of total window spend, with the equal-split fallback
when there are no channels or no spend. -/
def baseWeights (ds : List SpendRow) : List (String × ℚ) :=
  if channelsOf ds = [] then equalSplit
  else if ((channelsOf ds).map (spendOf ds)).sum = 0 then equalSplit
  else (channelsOf ds).map
    (fun c => (c, spendOf ds c / ((channelsOf ds).map (spendOf ds)).sum))

def computeWeights (ds : List SpendRow) (cw : Option (List (String × ℚ))) :
    List (String × ℚ) :=
  match cw with
  | none => baseWeights ds
  | some w =>
    let active := (channelsOf ds).filter (fun c => spendOf ds c ≠ 0)
    let wa := active.map (fun c => (c, (lookupQ w c).getD 0))
    let tw := (wa.map (fun p => p.2)).sum
    if tw = 0 then baseWeights ds else wa.map (fun p => (p.1, p.2 / tw))

/-- One allocated tuple (order_id, date, channel, weight, revenue share). -/
structure Alloc where
  order_id : String
  event_date : ℕ
  channel : String
  weight : ℚ
  allocated_revenue : ℚ
deriving DecidableEq

/-- Modelled from the spec: fractional_allocate.  For each order, one
allocation per channel with nonzero weight, allocating revenue times
weight, with the weight policy of computeWeights. -/
def fractional_allocate (orders : List ORow) (ds : List SpendRow)
    (cw : Option (List (String × ℚ))) : List Alloc :=
  orders.flatMap (fun r =>
    ((computeWeights ds cw).filter (fun p => p.2 ≠ 0)).map
      (fun p => ⟨r.order_id, r.order_date, p.1, p.2, r.revenue * p.2⟩))

/-- Modelled from the spec: markov_credits
(packages/attribution/src/markov.py is not among the repository's
files).  Spec 4.3: it requires at least min_sequences touch sequences to
activate and below that threshold returns no override; the weight vector
it produces when active (removal-effect credits) is abstracted as the
parameter markovW. -/
def markov_credits (markovW : List (List String) → List String → List (String × ℚ))
    (seqs : List (List String)) (channels : List String) (minSeq : ℕ) :
    Option (List (String × ℚ)) :=
  if seqs.length < minSeq then none else some (markovW seqs channels)

/-- Per-channel revenue totals of an allocation list. -/
def allocRevOf (allocated : List Alloc) (c : String) : ℚ :=
  ((allocated.filter (fun a => a.channel = c)).map
    (fun a => a.allocated_revenue)).sum

/-- The allocations dict returned by the core logic: each channel's share
of total allocated revenue, denominator defaulted to 1 when zero. -/
def allocationsDict (channels : List String) (allocated : List Alloc) :
    List (String × ℚ) :=
  let tot := (allocated.map (fun a => a.allocated_revenue)).sum
  let d := if tot = 0 then 1 else tot
  channels.map (fun c => (c, allocRevOf allocated c / d))

/-- Output of the core attribution logic. -/
structure CoreOut where
  n : ℕ
  allocations : List (String × ℚ)
  allocated : List Alloc
  events : List AttributionEvent
deriving DecidableEq

/-- The weight vector handed to the allocator: the Markov override when
it activates, else the supplied channel weights. -/
def coreWeights
    (markovW : List (List String) → List String → List (String × ℚ))
    (channels : List String) (cw : Option (List (String × ℚ)))
    (seqs : Option (List (List String))) (minSeq : ℕ) :
    Option (List (String × ℚ)) :=
  match seqs with
  | none => cw
  | some sq =>
    match markov_credits markovW sq channels minSeq with
    | none => cw
    | some w => some w

/-- The shared attribution logic: load orders (minus the excluded ids)
and spend, pick weights (Markov override when it activates, else the
supplied channel weights), allocate fractionally, and write one
attribution_events row per allocation. -/
def core_attribution_logic
    (markovW : List (List String) → List String → List (String × ℚ))
    (s : Session) (runId : String) (start e : ℕ)
    (cw : Option (List (String × ℚ))) (seqs : Option (List (List String)))
    (minSeq : ℕ) (exclude : List String) : CoreOut :=
  let orders := ordersDf s start e exclude
  if orders = [] then ⟨0, [], [], []⟩
  else
    let ds := dailySpendByChannel s start e
    let channels := if ds = [] then defaultChannels else channelsOf ds
    let weights := coreWeights markovW channels cw seqs minSeq
    let allocated := fractional_allocate orders ds weights
    let evs := allocated.map (fun a =>
      (⟨a.order_id, a.channel, none, none, a.weight, a.allocated_revenue,
        a.event_date, runId⟩ : AttributionEvent))
    ⟨allocated.length, allocationsDict channels allocated, allocated, evs⟩

/-- run_attribution: click-ID pass first, then the fractional / Markov
pass over the remaining orders; returns the total row count and the rows
written by the two passes. -/
def run_attribution
    (markovW : List (List String) → List String → List (String × ℚ))
    (s : Session) (runId : String) (start e : ℕ)
    (cw : Option (List (String × ℚ))) (seqs : Option (List (List String)))
    (minSeq : ℕ) : ℕ × List AttributionEvent :=
  let click := run_click_id_attribution s runId start e
  let core := core_attribution_logic markovW s runId start e cw seqs minSeq
    click.consumed
  (click.n + core.n, click.events ++ core.events)

/-! ## Summation helpers -/

theorem sum_map_div {α : Type} (l : List α) (f : α → ℚ) (t : ℚ) :
    (l.map (fun x => f x / t)).sum = (l.map f).sum / t := by
  induction l with
  | nil => simp
  | cons x xs ih => simp [ih, add_div]

theorem sum_map_mul_left {α : Type} (l : List α) (f : α → ℚ) (c : ℚ) :
    (l.map (fun x => c * f x)).sum = c * (l.map f).sum := by
  induction l with
  | nil => simp
  | cons x xs ih => simp [ih, mul_add]

theorem sum_map_snd_filter_ne_zero (l : List (String × ℚ)) :
    (((l.filter (fun p => p.2 ≠ 0)).map (fun p => p.2)).sum) =
      ((l.map (fun p => p.2)).sum) := by
  induction l with
  | nil => rfl
  | cons x xs ih =>
    rw [List.filter_cons]
    by_cases h : x.2 = 0
    · rw [if_neg (by simp [h]), ih, List.map_cons, List.sum_cons, h, zero_add]
    · rw [if_pos (by simp [h]), List.map_cons, List.sum_cons, ih,
        List.map_cons, List.sum_cons]

theorem equalSplit_sum : ((equalSplit.map (fun p => p.2)).sum) = 1 := by
  simp [equalSplit, defaultChannels]
  norm_num

theorem baseWeights_sum (ds : List SpendRow) :
    ((baseWeights ds).map (fun p => p.2)).sum = 1 := by
  rw [baseWeights]
  by_cases h0 : channelsOf ds = []
  · rw [if_pos h0]; exact equalSplit_sum
  · rw [if_neg h0]
    by_cases h1 : ((channelsOf ds).map (spendOf ds)).sum = 0
    · rw [if_pos h1]; exact equalSplit_sum
    · rw [if_neg h1, List.map_map]
      have hcomp : ((fun p : String × ℚ => p.2) ∘
          (fun c => (c, spendOf ds c / ((channelsOf ds).map (spendOf ds)).sum))) =
          (fun c => spendOf ds c / ((channelsOf ds).map (spendOf ds)).sum) := rfl
      rw [hcomp, sum_map_div]
      exact div_self h1

/-- The weight vector the modelled allocator uses always sums to 1. -/
theorem computeWeights_sum (ds : List SpendRow)
    (cw : Option (List (String × ℚ))) :
    (((computeWeights ds cw).map (fun p => p.2)).sum) = 1 := by
  cases cw with
  | none => exact baseWeights_sum ds
  | some w =>
    simp only [computeWeights]
    set wa := ((channelsOf ds).filter (fun c => spendOf ds c ≠ 0)).map
      (fun c => (c, (lookupQ w c).getD 0)) with hwa
    by_cases h2 : ((wa.map (fun p => p.2)).sum) = 0
    · rw [if_pos h2]
      exact baseWeights_sum ds
    · rw [if_neg h2, List.map_map]
      have hcomp : ((fun p : String × ℚ => p.2) ∘
          (fun p : String × ℚ => (p.1, p.2 / (wa.map (fun p : String × ℚ => p.2)).sum))) =
          (fun p : String × ℚ => p.2 / (wa.map (fun p : String × ℚ => p.2)).sum) := rfl
      rw [hcomp, sum_map_div]
      exact div_self h2

/-! ## Key-filter helpers: selecting the rows of one order -/

theorem filter_filterMap_key_nil {α β : Type}
    (keyX : α → String) (keyE : β → String) (g : α → Option β)
    (hg : ∀ x e, g x = some e → keyE e = keyX x) (l : List α) (k : String)
    (h : l.filter (fun x => keyX x = k) = []) :
    (l.filterMap g).filter (fun e => keyE e = k) = [] := by
  induction l with
  | nil => rfl
  | cons x xs ih =>
    rw [List.filter_cons] at h
    by_cases hx : keyX x = k
    · simp [hx] at h
    · simp only [decide_eq_true_eq, hx, if_neg, ite_false] at h
      rw [List.filterMap_cons]
      cases hgx : g x with
      | none => simpa using ih (by simpa using h)
      | some ev =>
        have hkey : keyE ev = keyX x := hg x ev hgx
        rw [List.filter_cons]
        simp only [hkey, decide_eq_true_eq, hx, ite_false, if_neg]
        simpa using ih (by simpa using h)

theorem filter_filterMap_key_single {α β : Type}
    (keyX : α → String) (keyE : β → String) (g : α → Option β)
    (hg : ∀ x e, g x = some e → keyE e = keyX x) (l : List α) (k : String)
    (o : α) (h : l.filter (fun x => keyX x = k) = [o]) :
    (l.filterMap g).filter (fun e => keyE e = k) = (g o).toList := by
  induction l with
  | nil => simp at h
  | cons x xs ih =>
    rw [List.filter_cons] at h
    by_cases hx : keyX x = k
    · simp only [decide_eq_true_eq, hx, if_pos, ite_true] at h
      have hxo : x = o := by
        have := List.cons.injEq x (xs.filter (fun x => keyX x = k)) o []
        rw [h.symm] at this
        exact (List.cons.injEq x _ o []).mp h |>.1
      have htail : xs.filter (fun x => keyX x = k) = [] :=
        ((List.cons.injEq x _ o []).mp h).2
      subst hxo
      rw [List.filterMap_cons]
      cases hgx : g x with
      | none =>
        simpa using filter_filterMap_key_nil keyX keyE g hg xs k htail
      | some ev =>
        have hkey : keyE ev = keyX x := hg x ev hgx
        rw [List.filter_cons]
        simp only [hkey, decide_eq_true_eq, hx, ite_true, if_pos]
        rw [filter_filterMap_key_nil keyX keyE g hg xs k htail]
        simp
    · simp only [decide_eq_true_eq, hx, ite_false, if_neg] at h
      rw [List.filterMap_cons]
      cases hgx : g x with
      | none => simpa using ih (by simpa using h)
      | some ev =>
        have hkey : keyE ev = keyX x := hg x ev hgx
        rw [List.filter_cons]
        simp only [hkey, decide_eq_true_eq, hx, ite_false, if_neg]
        simpa using ih (by simpa using h)

theorem filter_flatMap_key_nil {α β : Type}
    (keyX : α → String) (keyE : β → String) (g : α → List β)
    (hg : ∀ x e, e ∈ g x → keyE e = keyX x) (l : List α) (k : String)
    (h : l.filter (fun x => keyX x = k) = []) :
    (l.flatMap g).filter (fun e => keyE e = k) = [] := by
  induction l with
  | nil => rfl
  | cons x xs ih =>
    rw [List.filter_cons] at h
    by_cases hx : keyX x = k
    · simp [hx] at h
    · simp only [decide_eq_true_eq, hx, ite_false, if_neg] at h
      rw [List.flatMap_cons, List.filter_append]
      have hchunk : (g x).filter (fun e => keyE e = k) = [] := by
        apply List.filter_eq_nil_iff.mpr
        intro e he
        simp only [decide_eq_true_eq]
        rw [hg x e he]
        exact hx
      rw [hchunk, ih (by simpa using h)]
      rfl

theorem filter_flatMap_key_single {α β : Type}
    (keyX : α → String) (keyE : β → String) (g : α → List β)
    (hg : ∀ x e, e ∈ g x → keyE e = keyX x) (l : List α) (k : String)
    (o : α) (h : l.filter (fun x => keyX x = k) = [o]) :
    (l.flatMap g).filter (fun e => keyE e = k) = g o := by
  induction l with
  | nil => simp at h
  | cons x xs ih =>
    rw [List.filter_cons] at h
    by_cases hx : keyX x = k
    · simp only [decide_eq_true_eq, hx, if_pos, ite_true] at h
      have hxo : x = o := ((List.cons.injEq x _ o []).mp h).1
      have htail : xs.filter (fun x => keyX x = k) = [] :=
        ((List.cons.injEq x _ o []).mp h).2
      subst hxo
      rw [List.flatMap_cons, List.filter_append]
      have hchunk : (g x).filter (fun e => keyE e = k) = g x := by
        apply List.filter_eq_self.mpr
        intro e he
        simp only [decide_eq_true_eq]
        rw [hg x e he]
        exact hx
      rw [hchunk, filter_flatMap_key_nil keyX keyE g hg xs k htail]
      simp
    · simp only [decide_eq_true_eq, hx, ite_false, if_neg] at h
      rw [List.flatMap_cons, List.filter_append]
      have hchunk : (g x).filter (fun e => keyE e = k) = [] := by
        apply List.filter_eq_nil_iff.mpr
        intro e he
        simp only [decide_eq_true_eq]
        rw [hg x e he]
        exact hx
      rw [hchunk, ih (by simpa using h)]
      rfl

/-! ## Per-order characterization of the written rows -/

/-- The attribution_events rows the fractional pass writes for one
orders-dataframe row. -/
def orderEvents (ds : List SpendRow) (w : Option (List (String × ℚ)))
    (runId : String) (r : ORow) : List AttributionEvent :=
  ((computeWeights ds w).filter (fun p => p.2 ≠ 0)).map
    (fun p => ⟨r.order_id, p.1, none, none, p.2, r.revenue * p.2,
      r.order_date, runId⟩)

theorem orderEvents_weight_sum (ds : List SpendRow)
    (w : Option (List (String × ℚ))) (runId : String) (r : ORow) :
    ((orderEvents ds w runId r).map (fun ev => ev.weight)).sum = 1 := by
  rw [orderEvents, List.map_map]
  have hcomp : ((fun ev : AttributionEvent => ev.weight) ∘
      (fun p : String × ℚ => (⟨r.order_id, p.1, none, none, p.2, r.revenue * p.2,
        r.order_date, runId⟩ : AttributionEvent))) =
      (fun p : String × ℚ => p.2) := rfl
  rw [hcomp, sum_map_snd_filter_ne_zero, computeWeights_sum]

theorem orderEvents_revenue_sum (ds : List SpendRow)
    (w : Option (List (String × ℚ))) (runId : String) (r : ORow) :
    ((orderEvents ds w runId r).map (fun ev => ev.allocated_revenue)).sum =
      r.revenue := by
  rw [orderEvents, List.map_map]
  have hcomp : ((fun ev : AttributionEvent => ev.allocated_revenue) ∘
      (fun p : String × ℚ => (⟨r.order_id, p.1, none, none, p.2, r.revenue * p.2,
        r.order_date, runId⟩ : AttributionEvent))) =
      (fun p : String × ℚ => r.revenue * p.2) := rfl
  rw [hcomp, sum_map_mul_left]
  have hs : ((((computeWeights ds w).filter (fun p => p.2 ≠ 0)).map
      (fun p : String × ℚ => p.2)).sum) = 1 := by
    rw [sum_map_snd_filter_ne_zero, computeWeights_sum]
  rw [hs, mul_one]

theorem orderEvents_key (ds : List SpendRow) (w : Option (List (String × ℚ)))
    (runId : String) (r : ORow) :
    ∀ ev ∈ orderEvents ds w runId r, ev.order_id = r.order_id := by
  intro ev hev
  rw [orderEvents] at hev
  obtain ⟨p, _, hp⟩ := List.mem_map.mp hev
  rw [← hp]

theorem orderEvents_ne_nil (ds : List SpendRow)
    (w : Option (List (String × ℚ))) (runId : String) (r : ORow) :
    orderEvents ds w runId r ≠ [] := by
  intro h
  have := orderEvents_weight_sum ds w runId r
  rw [h] at this
  simp at this

/-- The events written by the core pass, as a flat map of per-order
chunks, when the orders dataframe is nonempty. -/
theorem core_events_eq
    (markovW : List (List String) → List String → List (String × ℚ))
    (s : Session) (runId : String) (start e : ℕ)
    (cw : Option (List (String × ℚ))) (seqs : Option (List (List String)))
    (minSeq : ℕ) (exclude : List String)
    (h : ordersDf s start e exclude ≠ []) :
    (core_attribution_logic markovW s runId start e cw seqs minSeq exclude).events =
      (ordersDf s start e exclude).flatMap
        (orderEvents (dailySpendByChannel s start e)
          (coreWeights markovW
            (if dailySpendByChannel s start e = [] then defaultChannels
              else channelsOf (dailySpendByChannel s start e))
            cw seqs minSeq) runId) := by
  rw [core_attribution_logic]
  simp only [if_neg h]
  rw [fractional_allocate, List.map_flatMap]
  simp only [List.map_map]
  rfl

/-- Selecting one order's rows from the orders dataframe: with the order
unique in the window, the dataframe carries its row unless excluded. -/
theorem ordersDf_filter_key (s : Session) (start e : ℕ)
    (exclude : List String) (o : Order)
    (h : (windowOrders s start e).filter
      (fun x => x.order_id = o.order_id) = [o]) :
    (ordersDf s start e exclude).filter
      (fun r => r.order_id = o.order_id) =
      if o.order_id ∈ exclude then []
      else [⟨o.order_id, o.order_date, orderRevenue o⟩] := by
  rw [ordersDf, List.filter_map]
  have hcomp : ((fun r : ORow => decide (r.order_id = o.order_id)) ∘
      (fun x : Order => (⟨x.order_id, x.order_date, orderRevenue x⟩ : ORow))) =
      (fun x : Order => decide (x.order_id = o.order_id)) := rfl
  rw [hcomp, List.filter_comm, h]
  by_cases hex : o.order_id ∈ exclude
  · rw [if_pos hex]
    simp [hex]
  · rw [if_neg hex]
    simp [hex]

/-- No core rows for an order id that does not survive the key filter. -/
theorem core_filter_key_nil
    (markovW : List (List String) → List String → List (String × ℚ))
    (s : Session) (runId : String) (start e : ℕ)
    (cw : Option (List (String × ℚ))) (seqs : Option (List (List String)))
    (minSeq : ℕ) (exclude : List String) (k : String)
    (h : (ordersDf s start e exclude).filter (fun r => r.order_id = k) = []) :
    ((core_attribution_logic markovW s runId start e cw seqs minSeq
      exclude).events).filter (fun ev => ev.order_id = k) = [] := by
  by_cases ho : ordersDf s start e exclude = []
  · rw [core_attribution_logic]
    simp [ho]
  · rw [core_events_eq markovW s runId start e cw seqs minSeq exclude ho]
    exact filter_flatMap_key_nil (fun r : ORow => r.order_id)
      (fun ev : AttributionEvent => ev.order_id) _
      (fun r => orderEvents_key _ _ _ r) _ k h

/-- The core rows for an order id that selects exactly one dataframe row
are exactly that row's chunk. -/
theorem core_filter_key_single
    (markovW : List (List String) → List String → List (String × ℚ))
    (s : Session) (runId : String) (start e : ℕ)
    (cw : Option (List (String × ℚ))) (seqs : Option (List (List String)))
    (minSeq : ℕ) (exclude : List String) (r : ORow)
    (h : (ordersDf s start e exclude).filter
      (fun x => x.order_id = r.order_id) = [r]) :
    ((core_attribution_logic markovW s runId start e cw seqs minSeq
      exclude).events).filter (fun ev => ev.order_id = r.order_id) =
      orderEvents (dailySpendByChannel s start e)
        (coreWeights markovW
          (if dailySpendByChannel s start e = [] then defaultChannels
            else channelsOf (dailySpendByChannel s start e))
          cw seqs minSeq) runId r := by
  have ho : ordersDf s start e exclude ≠ [] := by
    intro hnil
    rw [hnil] at h
    simp at h
  rw [core_events_eq markovW s runId start e cw seqs minSeq exclude ho]
  exact filter_flatMap_key_single (fun x : ORow => x.order_id)
    (fun ev : AttributionEvent => ev.order_id) _
    (fun x => orderEvents_key _ _ _ x) _ _ r h

/-! ## Click-pass characterization -/

/-- The click pass preserves the order id on the row it writes. -/
theorem clickEventOf_key (clicks : List AdClick) (runId : String) :
    ∀ o ev, clickEventOf clicks runId o = some ev →
      ev.order_id = o.order_id := by
  intro o ev h
  cases hk : clickKey o with
  | none => simp only [clickEventOf, hk] at h; exact absurd h (by simp)
  | some k =>
    cases hl : lookupClick clicks k with
    | none =>
      simp only [clickEventOf, hk, hl] at h
      exact absurd h (by simp)
    | some info =>
      obtain ⟨ch, cid, cname⟩ := info
      simp only [clickEventOf, hk, hl] at h
      by_cases hrev : orderRevenue o ≤ 0
      · rw [if_pos hrev] at h; exact absurd h (by simp)
      · rw [if_neg hrev] at h
        simp only [Option.some.injEq] at h
        rw [← h]

/-- What the click pass writes when the order qualifies. -/
theorem clickEventOf_qualifies (clicks : List AdClick) (runId : String)
    (o : Order) (k : String) (ch cid : String) (cname : Option String)
    (hk : clickKey o = some k)
    (hl : lookupClick clicks k = some (ch, cid, cname))
    (hrev : 0 < orderRevenue o) :
    clickEventOf clicks runId o =
      some ⟨o.order_id, ch, some cid, cname, 1, orderRevenue o,
        o.order_date, runId⟩ := by
  simp only [clickEventOf, hk, hl]
  rw [if_neg (not_le.mpr hrev)]

/-- The click pass skips an order whose click does not resolve or whose
revenue is not positive. -/
theorem clickEventOf_skips (clicks : List AdClick) (runId : String)
    (o : Order)
    (h : (∀ k, clickKey o = some k → lookupClick clicks k = none) ∨
      orderRevenue o ≤ 0) :
    clickEventOf clicks runId o = none := by
  cases hk : clickKey o with
  | none => simp only [clickEventOf, hk]
  | some k =>
    cases h with
    | inl hnone => simp only [clickEventOf, hk, hnone k hk]
    | inr hrev =>
      cases hl : lookupClick clicks k with
      | none => simp only [clickEventOf, hk, hl]
      | some info =>
        obtain ⟨ch, cid, cname⟩ := info
        simp only [clickEventOf, hk, hl]
        rw [if_pos hrev]

/-- Membership of an order id in a mapped key list, phrased through the
key filter. -/
theorem mem_map_key_iff_filter_ne_nil (evs : List AttributionEvent)
    (k : String) :
    k ∈ evs.map (fun ev => ev.order_id) ↔
      evs.filter (fun ev => ev.order_id = k) ≠ [] := by
  rw [List.mem_map]
  constructor
  · rintro ⟨ev, hev, hkey⟩ hnil
    have : ev ∈ evs.filter (fun ev => ev.order_id = k) :=
      List.mem_filter.mpr ⟨hev, by simp [hkey]⟩
    rw [hnil] at this
    exact absurd this (by simp)
  · intro hne
    obtain ⟨ev, hev⟩ := List.exists_mem_of_ne_nil _ hne
    exact ⟨ev, List.mem_of_mem_filter hev,
      by simpa using (List.mem_filter.mp hev).2⟩

/-- Shape of the row the click pass writes for an order. -/
theorem clickEventOf_shape (clicks : List AdClick) (runId : String)
    (o : Order) (ev : AttributionEvent)
    (h : clickEventOf clicks runId o = some ev) :
    ev.order_id = o.order_id ∧ ev.weight = 1 ∧
      ev.allocated_revenue = orderRevenue o := by
  cases hk : clickKey o with
  | none => simp only [clickEventOf, hk] at h; exact absurd h (by simp)
  | some k =>
    cases hl : lookupClick clicks k with
    | none =>
      simp only [clickEventOf, hk, hl] at h
      exact absurd h (by simp)
    | some info =>
      obtain ⟨ch, cid, cname⟩ := info
      simp only [clickEventOf, hk, hl] at h
      by_cases hrev : orderRevenue o ≤ 0
      · rw [if_pos hrev] at h; exact absurd h (by simp)
      · rw [if_neg hrev] at h
        simp only [Option.some.injEq] at h
        rw [← h]
        exact ⟨rfl, rfl, rfl⟩

/-- The rows a full attribution run writes for one order, with the order
unique in the window, sum to weight exactly 1 and revenue exactly the
order's revenue. -/
theorem run_attribution_filter_key_sums
    (markovW : List (List String) → List String → List (String × ℚ))
    (s : Session) (runId : String) (start e : ℕ)
    (cw : Option (List (String × ℚ))) (seqs : Option (List (List String)))
    (minSeq : ℕ) (o : Order)
    (h : (windowOrders s start e).filter
      (fun x => x.order_id = o.order_id) = [o]) :
    (((((run_attribution markovW s runId start e cw seqs minSeq).2).filter
        (fun ev => ev.order_id = o.order_id)).map
        (fun ev => ev.weight)).sum = 1) ∧
    (((((run_attribution markovW s runId start e cw seqs minSeq).2).filter
        (fun ev => ev.order_id = o.order_id)).map
        (fun ev => ev.allocated_revenue)).sum = orderRevenue o) := by
  have hsplit : (run_attribution markovW s runId start e cw seqs minSeq).2 =
      (run_click_id_attribution s runId start e).events ++
      (core_attribution_logic markovW s runId start e cw seqs minSeq
        (run_click_id_attribution s runId start e).consumed).events := rfl
  rw [hsplit, List.filter_append]
  by_cases hc : clicksWindow s start e = []
  · have hclick : run_click_id_attribution s runId start e = ⟨0, [], []⟩ := by
      simp only [run_click_id_attribution]
      rw [if_pos hc]
    rw [hclick]
    have hdf := ordersDf_filter_key s start e
      (ClickOut.mk 0 [] []).consumed o h
    rw [if_neg (by simp)] at hdf
    have hcore := core_filter_key_single markovW s runId start e cw seqs
      minSeq (ClickOut.mk 0 [] []).consumed
      ⟨o.order_id, o.order_date, orderRevenue o⟩ hdf
    rw [hcore]
    constructor
    · rw [List.filter_nil, List.nil_append, orderEvents_weight_sum]
    · rw [List.filter_nil, List.nil_append, orderEvents_revenue_sum]
  · have hclick_ev : (run_click_id_attribution s runId start e).events =
        (windowOrders s start e).filterMap
          (clickEventOf (clicksWindow s start e) runId) := by
      simp only [run_click_id_attribution]
      rw [if_neg hc]
    have hclick_cons : (run_click_id_attribution s runId start e).consumed =
        ((windowOrders s start e).filterMap
          (clickEventOf (clicksWindow s start e) runId)).map
          (fun ev => ev.order_id) := by
      simp only [run_click_id_attribution]
      rw [if_neg hc]
    have hfil : ((run_click_id_attribution s runId start e).events).filter
        (fun ev => ev.order_id = o.order_id) =
        (clickEventOf (clicksWindow s start e) runId o).toList := by
      rw [hclick_ev]
      exact filter_filterMap_key_single (fun x : Order => x.order_id)
        (fun ev : AttributionEvent => ev.order_id) _
        (fun x ev hx => clickEventOf_key _ _ x ev hx) _ _ o h
    cases hgo : clickEventOf (clicksWindow s start e) runId o with
    | some ev =>
      obtain ⟨hkey, hw, hr⟩ := clickEventOf_shape _ _ _ _ hgo
      have hmem : o.order_id ∈
          (run_click_id_attribution s runId start e).consumed := by
        rw [hclick_cons,
          mem_map_key_iff_filter_ne_nil]
        rw [← hclick_ev, hfil, hgo]
        simp
      have hdf := ordersDf_filter_key s start e
        (run_click_id_attribution s runId start e).consumed o h
      rw [if_pos hmem] at hdf
      have hcore := core_filter_key_nil markovW s runId start e cw seqs
        minSeq (run_click_id_attribution s runId start e).consumed
        o.order_id hdf
      rw [hfil, hgo, hcore]
      constructor
      · simp [hw]
      · simp [hr]
    | none =>
      have hnmem : o.order_id ∉
          (run_click_id_attribution s runId start e).consumed := by
        rw [hclick_cons, mem_map_key_iff_filter_ne_nil]
        rw [← hclick_ev, hfil, hgo]
        simp
      have hdf := ordersDf_filter_key s start e
        (run_click_id_attribution s runId start e).consumed o h
      rw [if_neg hnmem] at hdf
      have hcore := core_filter_key_single markovW s runId start e cw seqs
        minSeq (run_click_id_attribution s runId start e).consumed
        ⟨o.order_id, o.order_date, orderRevenue o⟩ hdf
      rw [hfil, hgo, hcore]
      constructor
      · rw [Option.toList_none, List.nil_append, orderEvents_weight_sum]
      · rw [Option.toList_none, List.nil_append, orderEvents_revenue_sum]

/-! ## Claim C1 -/

/-- C1: for every order that is unique in the date window and every run,
the weights of all attribution rows written for it by run_attribution
(click-ID pass plus fractional/Markov pass together) sum to 1.0 within
1e-6 and their allocated revenue sums to the order's revenue (net when
present, else gross) within 1e-2. -/
theorem c1_order_event_sums
    (markovW : List (List String) → List String → List (String × ℚ))
    (s : Session) (runId : String) (start e : ℕ)
    (cw : Option (List (String × ℚ))) (seqs : Option (List (List String)))
    (minSeq : ℕ) (o : Order)
    (h : (windowOrders s start e).filter
      (fun x => x.order_id = o.order_id) = [o]) :
    qabs ((((((run_attribution markovW s runId start e cw seqs minSeq).2).filter
        (fun ev => ev.order_id = o.order_id)).map
        (fun ev => ev.weight)).sum) - 1) ≤ 1/1000000 ∧
    qabs ((((((run_attribution markovW s runId start e cw seqs minSeq).2).filter
        (fun ev => ev.order_id = o.order_id)).map
        (fun ev => ev.allocated_revenue)).sum) - orderRevenue o) ≤ 1/100 := by
  obtain ⟨h1, h2⟩ := run_attribution_filter_key_sums markovW s runId start e
    cw seqs minSeq o h
  constructor
  · rw [h1, sub_self]
    norm_num [qabs]
  · rw [h2, sub_self]
    norm_num [qabs]

/-- Concrete order for the C1 witness. -/
def c1O : Order := ⟨"o1", 5, 100, none, none⟩

/-- Concrete session for the C1 witness: one order, one day of spend on
two channels, nothing else. -/
def c1S : Session :=
  ⟨[c1O], [], [], [⟨5, 60⟩], [⟨5, 40⟩], [], [], [], []⟩

theorem c1_order_event_sums_witness :
    ((windowOrders c1S 0 10).filter
      (fun x => x.order_id = c1O.order_id) = [c1O]) ∧
    (qabs ((((((run_attribution (fun _ _ => []) c1S "r1" 0 10 none none
        10).2).filter (fun ev => ev.order_id = c1O.order_id)).map
        (fun ev => ev.weight)).sum) - 1) ≤ 1/1000000 ∧
      qabs ((((((run_attribution (fun _ _ => []) c1S "r1" 0 10 none none
        10).2).filter (fun ev => ev.order_id = c1O.order_id)).map
        (fun ev => ev.allocated_revenue)).sum) - orderRevenue c1O) ≤ 1/100) :=
  ⟨by apply of_decide_eq_true; with_unfolding_all rfl,
    c1_order_event_sums (fun _ _ => []) c1S "r1" 0 10 none none 10 c1O
      (by apply of_decide_eq_true; with_unfolding_all rfl)⟩

/-! ## Claim C2 -/

/-- C2: an in-window order, unique in the window, whose stripped click
identifier resolves against the in-window clicks and whose revenue (net
when present, else gross) is positive, gets exactly one click-ID row of
weight 1.0 carrying that click's channel and campaign and the full
revenue; its identifier is in the consumed set, and the fractional pass
run on that consumed set writes no row for it. -/
theorem c2_click_id_exclusive
    (markovW : List (List String) → List String → List (String × ℚ))
    (s : Session) (runId : String) (start e : ℕ)
    (cw : Option (List (String × ℚ))) (seqs : Option (List (List String)))
    (minSeq : ℕ) (o : Order) (k ch cid : String) (cname : Option String)
    (h : (windowOrders s start e).filter
      (fun x => x.order_id = o.order_id) = [o])
    (hk : clickKey o = some k)
    (hl : lookupClick (clicksWindow s start e) k = some (ch, cid, cname))
    (hrev : 0 < orderRevenue o) :
    (((run_click_id_attribution s runId start e).events).filter
        (fun ev => ev.order_id = o.order_id) =
      [⟨o.order_id, ch, some cid, cname, 1, orderRevenue o,
        o.order_date, runId⟩]) ∧
    (o.order_id ∈ (run_click_id_attribution s runId start e).consumed) ∧
    (((core_attribution_logic markovW s runId start e cw seqs minSeq
        (run_click_id_attribution s runId start e).consumed).events).filter
      (fun ev => ev.order_id = o.order_id) = []) := by
  have hc : clicksWindow s start e ≠ [] := by
    intro heq
    rw [heq] at hl
    exact absurd hl (by simp [lookupClick])
  have hclick_ev : (run_click_id_attribution s runId start e).events =
      (windowOrders s start e).filterMap
        (clickEventOf (clicksWindow s start e) runId) := by
    simp only [run_click_id_attribution]
    rw [if_neg hc]
  have hclick_cons : (run_click_id_attribution s runId start e).consumed =
      ((windowOrders s start e).filterMap
        (clickEventOf (clicksWindow s start e) runId)).map
        (fun ev => ev.order_id) := by
    simp only [run_click_id_attribution]
    rw [if_neg hc]
  have hgo := clickEventOf_qualifies (clicksWindow s start e) runId o k ch
    cid cname hk hl hrev
  have hfil : ((run_click_id_attribution s runId start e).events).filter
      (fun ev => ev.order_id = o.order_id) =
      (clickEventOf (clicksWindow s start e) runId o).toList := by
    rw [hclick_ev]
    exact filter_filterMap_key_single (fun x : Order => x.order_id)
      (fun ev : AttributionEvent => ev.order_id) _
      (fun x ev hx => clickEventOf_key _ _ x ev hx) _ _ o h
  have hone : ((run_click_id_attribution s runId start e).events).filter
      (fun ev => ev.order_id = o.order_id) =
      [⟨o.order_id, ch, some cid, cname, 1, orderRevenue o,
        o.order_date, runId⟩] := by
    rw [hfil, hgo]
    rfl
  have hmem : o.order_id ∈
      (run_click_id_attribution s runId start e).consumed := by
    rw [hclick_cons, mem_map_key_iff_filter_ne_nil, ← hclick_ev, hone]
    simp
  refine ⟨hone, hmem, ?_⟩
  have hdf := ordersDf_filter_key s start e
    (run_click_id_attribution s runId start e).consumed o h
  rw [if_pos hmem] at hdf
  exact core_filter_key_nil markovW s runId start e cw seqs minSeq
    (run_click_id_attribution s runId start e).consumed o.order_id hdf

/-- Concrete order and session for the C2 witness: one order holding a
click identifier that resolves to a meta click. -/
def c2O : Order := ⟨"o2", 5, 80, some 50, some "abc"⟩

def c2S : Session :=
  ⟨[c2O], [], [⟨"abc", 3, "camp1", some "campName", "meta"⟩],
    [], [], [], [], [], []⟩

theorem c2_click_id_exclusive_witness :
    ((windowOrders c2S 0 10).filter
      (fun x => x.order_id = c2O.order_id) = [c2O]) ∧
    (clickKey c2O = some "abc") ∧
    (lookupClick (clicksWindow c2S 0 10) "abc" =
      some ("meta", "camp1", some "campName")) ∧
    (0 < orderRevenue c2O) ∧
    ((((run_click_id_attribution c2S "r2" 0 10).events).filter
        (fun ev => ev.order_id = c2O.order_id) =
      [⟨c2O.order_id, "meta", some "camp1", some "campName", 1,
        orderRevenue c2O, c2O.order_date, "r2"⟩]) ∧
    (c2O.order_id ∈ (run_click_id_attribution c2S "r2" 0 10).consumed) ∧
    (((core_attribution_logic (fun _ _ => []) c2S "r2" 0 10 none none 10
        (run_click_id_attribution c2S "r2" 0 10).consumed).events).filter
      (fun ev => ev.order_id = c2O.order_id) = [])) :=
  ⟨by apply of_decide_eq_true; with_unfolding_all rfl,
    by apply of_decide_eq_true; with_unfolding_all rfl,
    by apply of_decide_eq_true; with_unfolding_all rfl,
    by apply of_decide_eq_true; with_unfolding_all rfl,
    c2_click_id_exclusive (fun _ _ => []) c2S "r2" 0 10 none none 10 c2O
      "abc" "meta" "camp1" (some "campName")
      (by apply of_decide_eq_true; with_unfolding_all rfl)
      (by apply of_decide_eq_true; with_unfolding_all rfl)
      (by apply of_decide_eq_true; with_unfolding_all rfl)
      (by apply of_decide_eq_true; with_unfolding_all rfl)⟩

/-! ## Claim C7 -/

/-- C7: an in-window order, unique in the window, whose click identifier
does not resolve against the in-window clicks, or whose revenue (net
when present, else gross) is at most zero, gets no click-ID row, is not
in the consumed set, and falls through to the fractional pass, which
writes its (nonempty) chunk of rows. -/
theorem c7_skipped_orders_fall_through
    (markovW : List (List String) → List String → List (String × ℚ))
    (s : Session) (runId : String) (start e : ℕ)
    (cw : Option (List (String × ℚ))) (seqs : Option (List (List String)))
    (minSeq : ℕ) (o : Order)
    (h : (windowOrders s start e).filter
      (fun x => x.order_id = o.order_id) = [o])
    (hskip : (∃ k, clickKey o = some k ∧
        lookupClick (clicksWindow s start e) k = none) ∨
      orderRevenue o ≤ 0) :
    (((run_click_id_attribution s runId start e).events).filter
      (fun ev => ev.order_id = o.order_id) = []) ∧
    (o.order_id ∉ (run_click_id_attribution s runId start e).consumed) ∧
    ((⟨o.order_id, o.order_date, orderRevenue o⟩ : ORow) ∈
      ordersDf s start e (run_click_id_attribution s runId start e).consumed) ∧
    (((core_attribution_logic markovW s runId start e cw seqs minSeq
        (run_click_id_attribution s runId start e).consumed).events).filter
      (fun ev => ev.order_id = o.order_id) ≠ []) := by
  by_cases hc : clicksWindow s start e = []
  · have hclick : run_click_id_attribution s runId start e = ⟨0, [], []⟩ := by
      simp only [run_click_id_attribution]
      rw [if_pos hc]
    have hdf := ordersDf_filter_key s start e
      (run_click_id_attribution s runId start e).consumed o h
    rw [hclick] at hdf ⊢
    rw [if_neg (by simp)] at hdf
    have hcore := core_filter_key_single markovW s runId start e cw seqs
      minSeq (ClickOut.mk 0 [] []).consumed
      ⟨o.order_id, o.order_date, orderRevenue o⟩ hdf
    refine ⟨rfl, by simp, ?_, ?_⟩
    · have : (⟨o.order_id, o.order_date, orderRevenue o⟩ : ORow) ∈
          (ordersDf s start e (ClickOut.mk 0 [] []).consumed).filter
            (fun x => x.order_id = o.order_id) := by
        rw [hdf]; simp
      exact List.mem_of_mem_filter this
    · rw [hcore]
      exact orderEvents_ne_nil _ _ _ _
  · have hclick_ev : (run_click_id_attribution s runId start e).events =
        (windowOrders s start e).filterMap
          (clickEventOf (clicksWindow s start e) runId) := by
      simp only [run_click_id_attribution]
      rw [if_neg hc]
    have hclick_cons : (run_click_id_attribution s runId start e).consumed =
        ((windowOrders s start e).filterMap
          (clickEventOf (clicksWindow s start e) runId)).map
          (fun ev => ev.order_id) := by
      simp only [run_click_id_attribution]
      rw [if_neg hc]
    have hgnone : clickEventOf (clicksWindow s start e) runId o = none := by
      apply clickEventOf_skips
      cases hskip with
      | inl hex =>
        obtain ⟨k, hk, hl⟩ := hex
        left
        intro k' hk'
        rw [hk] at hk'
        simp only [Option.some.injEq] at hk'
        rw [← hk']
        exact hl
      | inr hrev => right; exact hrev
    have hfil : ((run_click_id_attribution s runId start e).events).filter
        (fun ev => ev.order_id = o.order_id) = [] := by
      rw [hclick_ev]
      rw [filter_filterMap_key_single (fun x : Order => x.order_id)
        (fun ev : AttributionEvent => ev.order_id) _
        (fun x ev hx => clickEventOf_key _ _ x ev hx) _ _ o h, hgnone]
      rfl
    have hnmem : o.order_id ∉
        (run_click_id_attribution s runId start e).consumed := by
      rw [hclick_cons, mem_map_key_iff_filter_ne_nil, ← hclick_ev, hfil]
      simp
    have hdf := ordersDf_filter_key s start e
      (run_click_id_attribution s runId start e).consumed o h
    rw [if_neg hnmem] at hdf
    have hcore := core_filter_key_single markovW s runId start e cw seqs
      minSeq (run_click_id_attribution s runId start e).consumed
      ⟨o.order_id, o.order_date, orderRevenue o⟩ hdf
    refine ⟨hfil, hnmem, ?_, ?_⟩
    · have : (⟨o.order_id, o.order_date, orderRevenue o⟩ : ORow) ∈
          (ordersDf s start e
            (run_click_id_attribution s runId start e).consumed).filter
            (fun x => x.order_id = o.order_id) := by
        rw [hdf]; simp
      exact List.mem_of_mem_filter this
    · rw [hcore]
      exact orderEvents_ne_nil _ _ _ _

/-- Concrete order and session for the C7 witness: the order's click
identifier matches no click record. -/
def c7O : Order := ⟨"o7", 5, 30, none, some "zzz"⟩

def c7S : Session :=
  ⟨[c7O], [], [⟨"abc", 3, "camp1", none, "meta"⟩], [⟨5, 10⟩], [], [], [],
    [], []⟩

theorem c7_skipped_orders_fall_through_witness :
    ((windowOrders c7S 0 10).filter
      (fun x => x.order_id = c7O.order_id) = [c7O]) ∧
    ((∃ k, clickKey c7O = some k ∧
        lookupClick (clicksWindow c7S 0 10) k = none) ∨
      orderRevenue c7O ≤ 0) ∧
    ((((run_click_id_attribution c7S "r7" 0 10).events).filter
      (fun ev => ev.order_id = c7O.order_id) = []) ∧
    (c7O.order_id ∉ (run_click_id_attribution c7S "r7" 0 10).consumed) ∧
    ((⟨c7O.order_id, c7O.order_date, orderRevenue c7O⟩ : ORow) ∈
      ordersDf c7S 0 10 (run_click_id_attribution c7S "r7" 0 10).consumed) ∧
    (((core_attribution_logic (fun _ _ => []) c7S "r7" 0 10 none none 10
        (run_click_id_attribution c7S "r7" 0 10).consumed).events).filter
      (fun ev => ev.order_id = c7O.order_id) ≠ [])) :=
  ⟨by apply of_decide_eq_true; with_unfolding_all rfl,
    Or.inl ⟨"zzz", by apply of_decide_eq_true; with_unfolding_all rfl,
      by apply of_decide_eq_true; with_unfolding_all rfl⟩,
    c7_skipped_orders_fall_through (fun _ _ => []) c7S "r7" 0 10 none none
      10 c7O (by apply of_decide_eq_true; with_unfolding_all rfl)
      (Or.inl ⟨"zzz", by apply of_decide_eq_true; with_unfolding_all rfl,
        by apply of_decide_eq_true; with_unfolding_all rfl⟩)⟩

/-! ## Claim C8 -/

/-- C8: the Markov pass activates exactly when the number of touch
sequences reaches min_sequences; below the threshold markov_credits
returns no override and the core logic behaves exactly as if no
sequences had been supplied, so the fractional weights stand. -/
theorem c8_markov_threshold
    (markovW : List (List String) → List String → List (String × ℚ))
    (sq : List (List String)) (channels : List String) (minSeq : ℕ) :
    ((markov_credits markovW sq channels minSeq).isSome ↔
      minSeq ≤ sq.length) ∧
    (∀ (s : Session) (runId : String) (start e : ℕ)
      (cw : Option (List (String × ℚ))) (excl : List String),
      sq.length < minSeq →
      core_attribution_logic markovW s runId start e cw (some sq) minSeq
          excl =
        core_attribution_logic markovW s runId start e cw none minSeq
          excl) := by
  constructor
  · rw [markov_credits]
    by_cases hlt : sq.length < minSeq
    · simp only [if_pos hlt]
      simp only [Option.isSome_none, Bool.false_eq_true, false_iff]
      omega
    · simp only [if_neg hlt]
      simp only [Option.isSome_some, true_iff]
      omega
  · intro s runId start e cw excl hlt
    have hcw : ∀ CH : List String,
        coreWeights markovW CH cw (some sq) minSeq =
          coreWeights markovW CH cw none minSeq := by
      intro CH
      simp [coreWeights, markov_credits, hlt]
    simp only [core_attribution_logic, hcw]

/-- Concrete session for the C8 witness. -/
def c8S : Session :=
  ⟨[⟨"o8", 5, 100, none, none⟩], [], [], [⟨5, 60⟩], [⟨5, 40⟩], [], [],
    [], []⟩

theorem c8_markov_threshold_witness :
    ((markov_credits (fun _ _ => []) [["meta"]] ["meta", "google"]
      10).isSome ↔ 10 ≤ ([["meta"]] : List (List String)).length) ∧
    (([["meta"]] : List (List String)).length < 10) ∧
    (core_attribution_logic (fun _ _ => []) c8S "r8" 0 10 none
        (some [["meta"]]) 10 [] =
      core_attribution_logic (fun _ _ => []) c8S "r8" 0 10 none none
        10 []) :=
  ⟨(c8_markov_threshold (fun _ _ => []) [["meta"]] ["meta", "google"]
      10).1,
    by decide,
    (c8_markov_threshold (fun _ _ => []) [["meta"]] ["meta", "google"]
      10).2 c8S "r8" 0 10 none [] (by decide)⟩

/-! ## Reconciliation report (packages/metrics/src/attribution_mmm_report.py) -/

/-- Total attributed revenue per channel over the in-window
attribution_events rows, optionally restricted to one run; keys in
first-occurrence order as in the Python dict. -/
def attribution_revenue_by_channel (s : Session) (start e : ℕ)
    (runId : Option String) : List (String × ℚ) :=
  let rows := (s.events.filter
    (fun ev => start ≤ ev.event_date ∧ ev.event_date ≤ e)).filter
    (fun ev => match runId with
      | none => true
      | some rid => ev.run_id = rid)
  (firstDedup (rows.map (fun ev => ev.channel))).map
    (fun c => (c, ((rows.filter (fun ev => ev.channel = c)).map
      (fun ev => ev.allocated_revenue)).sum))

/-- Total spend per channel over the window (spend_by_channel); a channel
with no rows sums to 0, which matches the Python dict.get default. -/
def spend_by_channel (s : Session) (start e : ℕ) : List (String × ℚ) :=
  [("meta", ((s.metaAds.filter (fun r => start ≤ r.date ∧ r.date ≤ e)).map
      (fun r => r.spend)).sum),
    ("google", ((s.googleAds.filter
      (fun r => start ≤ r.date ∧ r.date ≤ e)).map (fun r => r.spend)).sum),
    ("bing", ((s.bingAds.filter (fun r => start ≤ r.date ∧ r.date ≤ e)).map
      (fun r => r.spend)).sum),
    ("pinterest", ((s.pinterestAds.filter
      (fun r => start ≤ r.date ∧ r.date ≤ e)).map (fun r => r.spend)).sum)]

/-- MMM rows sorted by created_at descending (the order_by of the query;
ties carry no guaranteed database order, insertion sort picks one). -/
def sortRowsDesc (rows : List MMMRow) : List MMMRow :=
  List.insertionSort (fun a b : MMMRow => b.created_at ≤ a.created_at) rows

/-- First coefficient per channel over the descending-sorted rows: the
latest mmm_results coefficient of each channel. -/
def byChannelLatest (rows : List MMMRow) : List (String × ℚ) :=
  let sorted := sortRowsDesc rows
  (firstDedup (sorted.map (fun r => r.channel))).map
    (fun c => (c, match sorted.find? (fun r => r.channel = c) with
      | some r => r.coefficient
      | none => 0))

/-- mmm_contribution_share: latest coefficient per channel (restricted
to one run when mmm_run_id is given), contribution = coefficient times
response(spend), shares over the contribution total with the zero total
defaulted to 1.  The saturation response (optimizer.py is not among the
repository's files) is the parameter resp, already specialized to the
report's fixed half-life. -/
def mmm_contribution_share (resp : ℚ → ℚ) (s : Session)
    (spendBy : List (String × ℚ)) (mmmRunId : Option String) :
    List (String × ℚ) × List (String × ℚ) :=
  let rowsF := match mmmRunId with
    | none => s.mmmRows
    | some rid => s.mmmRows.filter (fun r => r.run_id = rid)
  if rowsF = [] then ([], [])
  else
    let contribution := (byChannelLatest rowsF).map
      (fun p => (p.1, p.2 * resp ((lookupQ spendBy p.1).getD 0)))
    let tot := (contribution.map (fun p => p.2)).sum
    let d := if tot = 0 then 1 else tot
    (contribution, contribution.map (fun p => (p.1, p.2 / d)))

/-- Sorted union of the channels of the two share maps. -/
def unionChannels (aS mS : List (String × ℚ)) : List String :=
  List.insertionSort (fun a b : String => a ≤ b)
    (firstDedup (aS.map (fun p => p.1) ++ mS.map (fun p => p.1)))

/-- The L1 disagreement loop of the report: sum of absolute share gaps
over the sorted channel union, a missing channel reading as share 0. -/
def l1Disagreement (aS mS : List (String × ℚ)) : ℚ :=
  ((unionChannels aS mS).map
    (fun c => qabs ((lookupQ aS c).getD 0 - (lookupQ mS c).getD 0))).sum

/-- Round half to even at the fourth decimal place (Python round(x, 4)
on the exact value). -/
def roundHalfEven (q : ℚ) : ℤ :=
  let f := ⌊q⌋
  let r := q - f
  if r < 1/2 then f
  else if 1/2 < r then f + 1
  else if Even f then f else f + 1

def pyRound4 (q : ℚ) : ℚ := ((roundHalfEven (q * 10000) : ℤ) : ℚ) / 10000

/-- The report returned by build_attribution_mmm_report. -/
structure Report where
  channels : List String
  attribution_share : List (String × ℚ)
  mmm_share : List (String × ℚ)
  disagreement_score : ℚ
  instability_flagged : Bool
deriving DecidableEq

/-- build_attribution_mmm_report: attribution shares over the total
attributed revenue (zero total defaulted to 1), MMM shares from the
latest coefficients, disagreement as the L1 gap over the channel union,
the returned score rounded to 4 decimals, and the instability flag
compared against the unrounded score. -/
def build_attribution_mmm_report (resp : ℚ → ℚ) (s : Session)
    (start e : ℕ) (attributionRunId mmmRunId : Option String)
    (instabilityThreshold : ℚ) : Report :=
  let attrRev := attribution_revenue_by_channel s start e attributionRunId
  let totA := (attrRev.map (fun p => p.2)).sum
  let dA := if totA = 0 then 1 else totA
  let aS := attrRev.map (fun p => (p.1, p.2 / dA))
  let mS := (mmm_contribution_share resp s (spend_by_channel s start e)
    mmmRunId).2
  let raw := l1Disagreement aS mS
  ⟨unionChannels aS mS, aS, mS, pyRound4 raw,
    decide (instabilityThreshold < raw)⟩

/-! ## Report lemmas -/

theorem mem_firstDedupGo (l : List String) :
    ∀ (seen : List String) (x : String),
      x ∈ firstDedupGo seen l ↔ x ∈ l ∧ x ∉ seen := by
  induction l with
  | nil => intro seen x; simp [firstDedupGo]
  | cons a as ih =>
    intro seen x
    rw [firstDedupGo]
    by_cases ha : a ∈ seen
    · rw [if_pos ha, ih]
      constructor
      · rintro ⟨hx, hn⟩
        exact ⟨List.mem_cons_of_mem a hx, hn⟩
      · rintro ⟨hx, hn⟩
        rcases List.mem_cons.mp hx with hxa | hxs
        · exact absurd (hxa ▸ ha) hn
        · exact ⟨hxs, hn⟩
    · rw [if_neg ha]
      constructor
      · intro hx
        rcases List.mem_cons.mp hx with hxa | hxs
        · exact ⟨hxa ▸ List.mem_cons_self a as, hxa ▸ ha⟩
        · obtain ⟨h1, h2⟩ := (ih (a :: seen) x).mp hxs
          exact ⟨List.mem_cons_of_mem a h1,
            fun hs => h2 (List.mem_cons_of_mem a hs)⟩
      · rintro ⟨hx, hn⟩
        by_cases hxa : x = a
        · exact hxa ▸ List.mem_cons_self a _
        · rcases List.mem_cons.mp hx with h1 | h1
          · exact absurd h1 hxa
          · exact List.mem_cons_of_mem a ((ih (a :: seen) x).mpr
              ⟨h1, fun hs => (List.mem_cons.mp hs).elim hxa hn⟩)

theorem mem_firstDedup (l : List String) (x : String) :
    x ∈ firstDedup l ↔ x ∈ l := by
  rw [firstDedup, mem_firstDedupGo]
  simp

theorem lookupQ_graph (keys : List String) (f : String → ℚ) (ch : String)
    (h : ch ∈ keys) :
    lookupQ (keys.map (fun c => (c, f c))) ch = some (f ch) := by
  induction keys with
  | nil => simp at h
  | cons a as ih =>
    rw [List.map_cons, lookupQ, List.find?_cons]
    by_cases ha : a = ch
    · subst ha
      simp
    · have hd : (decide ((a, f a).1 = ch)) = false := by simp [ha]
      rw [hd]
      rcases List.mem_cons.mp h with h1 | h1
      · exact absurd h1.symm ha
      · exact ih h1

theorem find?_created_le (l : List MMMRow) (p : MMMRow → Bool)
    (hp : List.Pairwise (fun a b => b.created_at ≤ a.created_at) l)
    (x : MMMRow) (hx : l.find? p = some x) :
    ∀ y ∈ l, p y = true → y.created_at ≤ x.created_at := by
  induction l with
  | nil => simp at hx
  | cons a as ih =>
    rw [List.find?_cons] at hx
    obtain ⟨hhead, htail⟩ := List.pairwise_cons.mp hp
    cases hpa : p a with
    | true =>
      rw [hpa] at hx
      simp only [Option.some.injEq] at hx
      subst hx
      intro y hy _
      rcases List.mem_cons.mp hy with h1 | h1
      · exact h1 ▸ le_refl _
      · exact hhead y h1
    | false =>
      rw [hpa] at hx
      intro y hy hpy
      rcases List.mem_cons.mp hy with h1 | h1
      · rw [h1] at hpy
        rw [hpy] at hpa
        exact absurd hpa (by simp)
      · exact ih htail hx y h1 hpy

/-! ## Claim C3 -/

/-- C3 (amended): the report's disagreement_score is the L1 sum of
absolute share gaps over the sorted channel union rounded to four
decimal places, and the instability flag is true exactly when the
unrounded L1 sum exceeds the threshold; on the spec scenario the L1 sum
is 0.6, unchanged by rounding, and exceeds the 0.25 threshold. -/
theorem c3_disagreement_score_and_flag :
    (∀ (resp : ℚ → ℚ) (s : Session) (start e : ℕ)
      (arid mrid : Option String) (thr : ℚ),
      ((build_attribution_mmm_report resp s start e arid mrid
          thr).disagreement_score =
        pyRound4 (l1Disagreement
          (build_attribution_mmm_report resp s start e arid mrid
            thr).attribution_share
          (build_attribution_mmm_report resp s start e arid mrid
            thr).mmm_share)) ∧
      ((build_attribution_mmm_report resp s start e arid mrid
          thr).instability_flagged = true ↔
        thr < l1Disagreement
          (build_attribution_mmm_report resp s start e arid mrid
            thr).attribution_share
          (build_attribution_mmm_report resp s start e arid mrid
            thr).mmm_share)) ∧
    (l1Disagreement [("meta", 6/10), ("google", 4/10)]
      [("meta", 3/10), ("google", 7/10)] = 6/10) ∧
    (pyRound4 (6/10) = 6/10) ∧ ((1 : ℚ)/4 < 6/10) := by
  refine ⟨?_, ?_, ?_, ?_⟩
  · intro resp s start e arid mrid thr
    exact ⟨rfl, by rw [show (build_attribution_mmm_report resp s start e
      arid mrid thr).instability_flagged = decide (thr < l1Disagreement
        (build_attribution_mmm_report resp s start e arid mrid
          thr).attribution_share
        (build_attribution_mmm_report resp s start e arid mrid
          thr).mmm_share) from rfl]; exact decide_eq_true_iff⟩
  · apply of_decide_eq_true; with_unfolding_all rfl
  · apply of_decide_eq_true; with_unfolding_all rfl
  · apply of_decide_eq_true; with_unfolding_all rfl

/-- Session refuting the exact-L1 reading of C3: attribution revenues 5
and -2 give shares 5/3 and -2/3, whose L1 gap 7/3 is not representable
in four decimal places. -/
def c3CexS : Session :=
  ⟨[], [], [], [], [], [], [],
    [⟨"o1", "meta", none, none, 1, 5, 5, "r"⟩,
      ⟨"o2", "google", none, none, 1, -2, 5, "r"⟩], []⟩

/-- C3 as literally stated is false: the returned disagreement_score
(7/3 rounded to 2.3333) differs from the L1 sum 7/3 of the returned
share maps. -/
theorem c3_score_rounding_counterexample :
    (build_attribution_mmm_report (fun _ => 1) c3CexS 0 10 none none
        (1/4)).disagreement_score ≠
      l1Disagreement
        (build_attribution_mmm_report (fun _ => 1) c3CexS 0 10 none none
          (1/4)).attribution_share
        (build_attribution_mmm_report (fun _ => 1) c3CexS 0 10 none none
          (1/4)).mmm_share := by
  apply of_decide_eq_true; with_unfolding_all rfl

/-! ## Claim C4 -/

/-- C4 (amended): when a share denominator total is zero it is defaulted
to 1, so the computation raises nothing and every share equals its raw
numerator (attributed revenue, or coefficient times response); shares
are therefore all zero only when the numerators are, and cancelling
nonzero contributions surface unchanged. -/
theorem c4_zero_total_defaults_denominator
    (resp : ℚ → ℚ) (s : Session) (start e : ℕ)
    (arid mrid : Option String) (thr : ℚ) :
    ((((attribution_revenue_by_channel s start e arid).map
        (fun p => p.2)).sum = 0 →
      (build_attribution_mmm_report resp s start e arid mrid
          thr).attribution_share =
        attribution_revenue_by_channel s start e arid)) ∧
    ((((mmm_contribution_share resp s (spend_by_channel s start e)
        mrid).1.map (fun p => p.2)).sum = 0 →
      (build_attribution_mmm_report resp s start e arid mrid
          thr).mmm_share =
        (mmm_contribution_share resp s (spend_by_channel s start e)
          mrid).1)) := by
  constructor
  · intro h
    show (attribution_revenue_by_channel s start e arid).map
        (fun p => (p.1, p.2 / (if ((attribution_revenue_by_channel s start e
          arid).map (fun p => p.2)).sum = 0 then 1
          else ((attribution_revenue_by_channel s start e arid).map
            (fun p => p.2)).sum))) = _
    rw [if_pos h]
    simp
  · intro h
    show (mmm_contribution_share resp s (spend_by_channel s start e)
        mrid).2 = _
    simp only [mmm_contribution_share.eq_def] at h ⊢
    by_cases hrows : (match mrid with
      | none => s.mmmRows
      | some rid => s.mmmRows.filter (fun r => r.run_id = rid)) = []
    · rw [if_pos hrows] at h ⊢
    · rw [if_neg hrows] at h ⊢
      simp only at h ⊢
      rw [if_pos h]
      simp

/-- Session refuting C4 as stated: attributed revenues 5 and -5 cancel
to a zero total, and the resulting shares are the raw values 5 and -5,
not zero. -/
def c4CexS : Session :=
  ⟨[], [], [], [], [], [], [],
    [⟨"o1", "meta", none, none, 1, 5, 5, "r"⟩,
      ⟨"o2", "google", none, none, 1, -5, 5, "r"⟩], []⟩

/-- C4 as literally stated is false: with a zero total from cancelling
nonzero per-channel revenues, the meta share is 5, not 0. -/
theorem c4_cancelling_total_counterexample :
    (((attribution_revenue_by_channel c4CexS 0 10 none).map
      (fun p => p.2)).sum = 0) ∧
    (lookupQ ((build_attribution_mmm_report (fun _ => 1) c4CexS 0 10 none
      none (1/4)).attribution_share) "meta" = some 5) := by
  constructor
  · apply of_decide_eq_true; with_unfolding_all rfl
  · apply of_decide_eq_true; with_unfolding_all rfl

/-- Empty session for the C4 witness. -/
def c4WS : Session := ⟨[], [], [], [], [], [], [], [], []⟩

theorem c4_zero_total_defaults_denominator_witness :
    ((((attribution_revenue_by_channel c4WS 0 0 none).map
      (fun p => p.2)).sum = 0) ∧
    ((build_attribution_mmm_report (fun _ => 1) c4WS 0 0 none none
        (1/4)).attribution_share =
      attribution_revenue_by_channel c4WS 0 0 none)) ∧
    ((((mmm_contribution_share (fun _ => 1) c4WS
      (spend_by_channel c4WS 0 0) none).1.map (fun p => p.2)).sum = 0) ∧
    ((build_attribution_mmm_report (fun _ => 1) c4WS 0 0 none none
        (1/4)).mmm_share =
      (mmm_contribution_share (fun _ => 1) c4WS
        (spend_by_channel c4WS 0 0) none).1)) :=
  ⟨⟨by apply of_decide_eq_true; with_unfolding_all rfl,
    (c4_zero_total_defaults_denominator (fun _ => 1) c4WS 0 0 none none
      (1/4)).1 (by apply of_decide_eq_true; with_unfolding_all rfl)⟩,
  ⟨by apply of_decide_eq_true; with_unfolding_all rfl,
    (c4_zero_total_defaults_denominator (fun _ => 1) c4WS 0 0 none none
      (1/4)).2 (by apply of_decide_eq_true; with_unfolding_all rfl)⟩⟩

/-! ## Claim C10 -/

/-- Two mmm_results rows from different runs, for the C10 mixing
instance: google's latest row is from runB, meta's from runA. -/
def c10Rows : List MMMRow :=
  [⟨"runB", 2, "google", 7⟩, ⟨"runA", 1, "meta", 3⟩]

/-- C10: with no mmm_run_id the report's MMM shares come from the
unfiltered mmm_results rows; per channel the coefficient used is that of
a row with maximal created_at among the channel's rows (order by
created_at descending, first occurrence kept), so latest rows of
different runs mix, as on the two-run instance. -/
theorem c10_latest_coefficient_per_channel :
    (∀ (resp : ℚ → ℚ) (s : Session) (start e : ℕ) (arid : Option String)
      (thr : ℚ),
      (build_attribution_mmm_report resp s start e arid none
          thr).mmm_share =
        (mmm_contribution_share resp s (spend_by_channel s start e)
          none).2) ∧
    (∀ (rows : List MMMRow) (ch : String),
      ch ∈ rows.map (fun r => r.channel) →
      ∃ r, r ∈ rows ∧ r.channel = ch ∧
        lookupQ (byChannelLatest rows) ch = some r.coefficient ∧
        ∀ r' ∈ rows, r'.channel = ch → r'.created_at ≤ r.created_at) ∧
    (byChannelLatest c10Rows = [("google", 7), ("meta", 3)]) := by
  refine ⟨fun resp s start e arid thr => rfl, ?_, ?_⟩
  · intro rows ch hch
    have hperm : (sortRowsDesc rows).Perm rows :=
      List.perm_insertionSort _ rows
    have hch' : ch ∈ (sortRowsDesc rows).map (fun r => r.channel) :=
      ((hperm.map (fun r => r.channel)).mem_iff).mpr hch
    obtain ⟨r₀, hr₀, hpr₀⟩ := List.mem_map.mp hch'
    have hfind : ((sortRowsDesc rows).find?
        (fun r => r.channel = ch)).isSome = true :=
      List.find?_isSome.mpr ⟨r₀, hr₀, by simp [hpr₀]⟩
    obtain ⟨r, hr⟩ := Option.isSome_iff_exists.mp hfind
    refine ⟨r, hperm.mem_iff.mp (List.mem_of_find?_eq_some hr), ?_, ?_, ?_⟩
    · have := List.find?_some hr
      simpa using this
    · rw [byChannelLatest]
      have hmem : ch ∈ firstDedup ((sortRowsDesc rows).map
          (fun r => r.channel)) := (mem_firstDedup _ ch).mpr hch'
      rw [lookupQ_graph _ _ ch hmem, hr]
    · intro r' hr' hch''
      haveI : IsTotal MMMRow (fun a b => b.created_at ≤ a.created_at) :=
        ⟨fun a b => Nat.le_total b.created_at a.created_at⟩
      haveI : IsTrans MMMRow (fun a b => b.created_at ≤ a.created_at) :=
        ⟨fun _ _ _ hab hbc => le_trans hbc hab⟩
      have hsorted : List.Pairwise
          (fun a b : MMMRow => b.created_at ≤ a.created_at)
          (sortRowsDesc rows) :=
        List.sorted_insertionSort _ rows
      exact find?_created_le (sortRowsDesc rows) _ hsorted r hr r'
        (hperm.mem_iff.mpr hr') (by simp [hch''])
  · apply of_decide_eq_true; with_unfolding_all rfl

theorem c10_latest_coefficient_per_channel_witness :
    ("google" ∈ c10Rows.map (fun r => r.channel)) ∧
    (∃ r, r ∈ c10Rows ∧ r.channel = "google" ∧
      lookupQ (byChannelLatest c10Rows) "google" = some r.coefficient ∧
      ∀ r' ∈ c10Rows, r'.channel = "google" →
        r'.created_at ≤ r.created_at) :=
  ⟨by apply of_decide_eq_true; with_unfolding_all rfl,
    c10_latest_coefficient_per_channel.2.1 c10Rows "google"
      (by apply of_decide_eq_true; with_unfolding_all rfl)⟩

/-! ## MMM runner (packages/mmm/src/runner.py) -/

/-- Modelled from the spec: the adstock carryover filter
(packages/mmm/src/transforms.py is not among the repository's files).
Spec 4.5: adstocked[t] = spend[t] + decay * adstocked[t-1], carrying the
accumulated value prev forward, with decay = 0.5^(1/half_life). -/
def adstockFrom {α : Type} [Ring α] (decay prev : α) : List α → List α
  | [] => []
  | x :: xs => (x + decay * prev) :: adstockFrom decay (x + decay * prev) xs

def adstock_transform {α : Type} [Ring α] (decay : α) (spend : List α) :
    List α :=
  adstockFrom decay 0 spend

theorem adstockFrom_length {α : Type} [Ring α] (decay : α)
    (l : List α) : ∀ prev : α, (adstockFrom decay prev l).length = l.length := by
  induction l with
  | nil => intro prev; rfl
  | cons x xs ih =>
    intro prev
    rw [adstockFrom, List.length_cons, List.length_cons, ih]

/-- The days of the window, pd.date_range: empty when the end precedes
the start. -/
def daysRange (start e : ℕ) : List ℕ :=
  if start ≤ e then (List.range (e - start + 1)).map (fun i => start + i)
  else []

/-- The spend records feeding one channel's column; a channel outside
the known four has no source table and its column stays zero. -/
def sessionSpendRecs (s : Session) (c : String) : List SpendRec :=
  if c = "meta" then s.metaAds
  else if c = "google" then s.googleAds
  else if c = "bing" then s.bingAds
  else if c = "pinterest" then s.pinterestAds
  else []

/-- One channel's daily spend series over the window days, summing the
records landing on each day. -/
def spendSeries (recs : List SpendRec) (start e : ℕ) (days : List ℕ) :
    List ℚ :=
  days.map (fun d =>
    (((recs.filter (fun r => start ≤ r.date ∧ r.date ≤ e)).filter
      (fun r => r.date = d)).map (fun r => r.spend)).sum)

/-- Daily revenue vector: net-else-gross revenue of the in-window orders
landing on each day. -/
def revSeries (s : Session) (start e : ℕ) (days : List ℕ) : List ℚ :=
  days.map (fun d =>
    (((windowOrders s start e).filter (fun o => o.order_date = d)).map
      orderRevenue).sum)

/-- np.hstack on the list of column vectors: raises on an empty list,
and on mismatched column lengths. -/
def hstack (cols : List (List ℚ)) : Except String (List (List ℚ)) :=
  match cols with
  | [] => .error "need at least one array to concatenate"
  | c :: cs =>
    if cs.all (fun c' => c'.length = c.length) then .ok (c :: cs)
    else .error "all the input array dimensions must match"

/-- np.size of the stacked matrix: total number of entries. -/
def matrixSize (cols : List (List ℚ)) : ℕ :=
  (cols.map (fun c => c.length)).sum

/-- Modelled from the spec: the output shape of fit_pipeline
(packages/mmm/src/model.py is not among the repository's files).  Spec
4.6/4.7: coefficients, R-squared, adjusted R-squared, MAPE, VIF,
elasticities, bootstrap confidence intervals, stability index,
confidence score, and the model version. -/
structure FitOut where
  coefficients : List (String × ℚ)
  r2 : Option ℚ
  adj_r2 : ℚ
  mape : ℚ
  vif : List (String × ℚ)
  elasticities : List (String × ℚ)
  bootstrap_ci : List (String × ℚ × ℚ)
  stability_index : ℚ
  confidence_score : ℚ
  model_version : String
deriving DecidableEq

/-- A trivial fit output, standing in for an arbitrary fit on concrete
inputs. -/
def defaultFitOut : FitOut := ⟨[], none, 0, 0, [], [], [], 0, 0, "v"⟩

/-- The fit function: feature columns, revenue vector, channel names and
model version to a fit output.  Taken as a parameter because model.py is
not among the repository's files. -/
def FitFn : Type :=
  List (List ℚ) → List ℚ → List String → String → FitOut

/-- A value of the dict run_mmm returns. -/
inductive PyVal where
  | num (q : ℚ)
  | str (s : String)
  | nullv
  | qmap (m : List (String × ℚ))
  | cmap (m : List (String × ℚ × ℚ))
deriving DecidableEq

/-- An mmm_results row as run_mmm writes it. -/
structure MMMResultsRow where
  run_id : String
  channel : String
  coefficient : ℚ
  goodness_of_fit_r2 : Option ℚ
  model_version : String
deriving DecidableEq

/-- Rows written on the degenerate branch: coefficient 0 and null
R-squared per requested channel. -/
def mmmDegRows (runId mv : String) (channels : List String) :
    List MMMResultsRow :=
  channels.map (fun c => ⟨runId, c, 0, none, mv⟩)

/-- Dict returned on the degenerate branch (source lines 113 to 122):
zero coefficients, null r2, empty diagnostics; no adj_r2 or mape key. -/
def mmmDegDict (runId : String) (channels : List String) :
    List (String × PyVal) :=
  [("run_id", .str runId), ("r2", .nullv),
    ("coefficients", .qmap (channels.map (fun c => (c, 0)))),
    ("vif", .qmap []), ("elasticities", .qmap []),
    ("bootstrap_ci", .cmap []), ("stability_index", .num 0),
    ("confidence_score", .num 0)]

/-- Rows written after a fit: each channel's coefficient (0 when the fit
returned none for it) with the shared R-squared and model version. -/
def mmmFitRows (runId : String) (out : FitOut) (channels : List String) :
    List MMMResultsRow :=
  channels.map (fun c =>
    ⟨runId, c, (lookupQ out.coefficients c).getD 0, out.r2,
      out.model_version⟩)

/-- Dict returned after a fit (source lines 144 to 156). -/
def mmmFitDict (runId : String) (out : FitOut) : List (String × PyVal) :=
  [("run_id", .str runId),
    ("r2", match out.r2 with | none => .nullv | some q => .num q),
    ("coefficients", .qmap out.coefficients),
    ("model_version", .str out.model_version),
    ("adj_r2", .num out.adj_r2), ("mape", .num out.mape),
    ("vif", .qmap out.vif),
    ("elasticities", .qmap out.elasticities),
    ("bootstrap_ci", .cmap out.bootstrap_ci),
    ("stability_index", .num out.stability_index),
    ("confidence_score", .num out.confidence_score)]

/-- run_mmm: build the daily spend matrix and revenue vector, transform
each channel column (adstock then elementwise saturation sat), stack the
columns, and either take the degenerate branch (empty matrix or empty
revenue: zero-coefficient rows, null R-squared, reduced dict) or fit and
write one row per channel.  The adstock decay and the saturation are
parameters standing for 0.5^(1/half_life) and the log saturation of the
missing transforms.py; both preserve the column length, which is all the
control flow reads. -/
def run_mmm (fit : FitFn) (sat : ℚ → ℚ) (decay : ℚ) (s : Session)
    (runId : String) (start e : ℕ) (channelsArg : Option (List String))
    (mv : String) :
    Except String (List MMMResultsRow × List (String × PyVal)) :=
  let channels := channelsArg.getD defaultChannels
  let days := daysRange start e
  let rev := revSeries s start e days
  let cols := channels.map (fun c =>
    (adstock_transform decay (spendSeries (sessionSpendRecs s c) start e
      days)).map sat)
  match hstack cols with
  | .error msg => .error msg
  | .ok x =>
    if matrixSize x = 0 ∨ rev.length = 0 then
      .ok (mmmDegRows runId mv channels, mmmDegDict runId channels)
    else
      let out := fit x rev channels mv
      .ok (mmmFitRows runId out channels, mmmFitDict runId out)

/-! ## MMM runner lemmas -/

theorem mmm_col_length (sat : ℚ → ℚ) (decay : ℚ) (s : Session)
    (start e : ℕ) (c : String) :
    ((adstock_transform decay (spendSeries (sessionSpendRecs s c) start e
      (daysRange start e))).map sat).length = (daysRange start e).length := by
  rw [List.length_map, adstock_transform, adstockFrom_length, spendSeries,
    List.length_map]

theorem mmm_hstack_ok (sat : ℚ → ℚ) (decay : ℚ) (s : Session)
    (start e : ℕ) (channels : List String) (h : channels ≠ []) :
    hstack (channels.map (fun c =>
      (adstock_transform decay (spendSeries (sessionSpendRecs s c) start e
        (daysRange start e))).map sat)) =
    .ok (channels.map (fun c =>
      (adstock_transform decay (spendSeries (sessionSpendRecs s c) start e
        (daysRange start e))).map sat)) := by
  obtain ⟨c0, cs0, rfl⟩ : ∃ c0 cs0, channels = c0 :: cs0 := by
    cases channels with
    | nil => exact absurd rfl h
    | cons a as => exact ⟨a, as, rfl⟩
  rw [List.map_cons, hstack]
  rw [if_pos]
  apply List.all_eq_true.mpr
  intro x hx
  obtain ⟨c, _, hc⟩ := List.mem_map.mp hx
  rw [← hc]
  simp only [decide_eq_true_eq]
  rw [mmm_col_length, mmm_col_length]

theorem mmm_matrixSize_zero (sat : ℚ → ℚ) (decay : ℚ) (s : Session)
    (start e : ℕ) (channels : List String)
    (hdays : daysRange start e = []) :
    matrixSize (channels.map (fun c =>
      (adstock_transform decay (spendSeries (sessionSpendRecs s c) start e
        (daysRange start e))).map sat)) = 0 := by
  rw [matrixSize]
  apply List.sum_eq_zero
  intro n hn
  rw [List.map_map] at hn
  obtain ⟨c, _, hc⟩ := List.mem_map.mp hn
  rw [← hc]
  show ((adstock_transform decay (spendSeries (sessionSpendRecs s c) start e
    (daysRange start e))).map sat).length = 0
  rw [mmm_col_length, hdays]
  rfl

theorem mmm_matrixSize_pos (sat : ℚ → ℚ) (decay : ℚ) (s : Session)
    (start e : ℕ) (channels : List String) (h : channels ≠ [])
    (hdays : daysRange start e ≠ []) :
    matrixSize (channels.map (fun c =>
      (adstock_transform decay (spendSeries (sessionSpendRecs s c) start e
        (daysRange start e))).map sat)) ≠ 0 := by
  obtain ⟨c0, cs0, rfl⟩ : ∃ c0 cs0, channels = c0 :: cs0 := by
    cases channels with
    | nil => exact absurd rfl h
    | cons a as => exact ⟨a, as, rfl⟩
  rw [matrixSize, List.map_cons, List.map_cons, List.sum_cons]
  intro hzero
  have h1 : ((adstock_transform decay (spendSeries (sessionSpendRecs s c0)
      start e (daysRange start e))).map sat).length = 0 :=
    Nat.eq_zero_of_add_eq_zero_right hzero
  rw [mmm_col_length] at h1
  exact hdays (List.length_eq_zero.mp h1)

theorem ite_ok_exists {α : Type} (c : Prop) [Decidable c] (a b : α) :
    ∃ p, (if c then (Except.ok a : Except String α) else Except.ok b) =
      .ok p := by
  by_cases h : c
  · exact ⟨a, if_pos h⟩
  · exact ⟨b, if_neg h⟩

/-! ## Claim C5 -/

/-- C5 (amended): for a nonempty channel list run_mmm never raises, and
on a degenerate window (no days, hence an empty feature matrix and
empty revenue vector) it writes one zero-coefficient null-R-squared row
per requested channel and returns zero coefficients with a null r2; the
claim's empty-channel-list case instead raises in np.hstack, see the
counterexample. -/
theorem c5_degenerate_inputs_no_raise (fit : FitFn) (sat : ℚ → ℚ)
    (decay : ℚ) (s : Session) (runId : String) (start e : ℕ)
    (copt : Option (List String)) (mv : String)
    (h : copt.getD defaultChannels ≠ []) :
    (∃ p, run_mmm fit sat decay s runId start e copt mv = .ok p) ∧
    (daysRange start e = [] →
      run_mmm fit sat decay s runId start e copt mv =
        .ok (mmmDegRows runId mv (copt.getD defaultChannels),
          mmmDegDict runId (copt.getD defaultChannels))) := by
  have hst := mmm_hstack_ok sat decay s start e (copt.getD defaultChannels) h
  constructor
  · simp only [run_mmm]
    rw [hst]
    exact ite_ok_exists _ _ _
  · intro hdays
    have hsz := mmm_matrixSize_zero sat decay s start e
      (copt.getD defaultChannels) hdays
    simp only [run_mmm]
    rw [hst]
    simp only
    rw [if_pos (Or.inl hsz)]

/-- Empty session for the C5 and C6 instances. -/
def c5S : Session := ⟨[], [], [], [], [], [], [], [], []⟩

/-- C5 as stated is false for the empty channel list: run_mmm with
channels = [] produces an empty column list and np.hstack raises. -/
theorem c5_empty_channels_counterexample :
    run_mmm (fun _ _ _ _ => defaultFitOut) (fun q => q) 0 c5S "r" 0 0
      (some []) "v" = .error "need at least one array to concatenate" :=
  rfl

theorem c5_degenerate_inputs_no_raise_witness :
    ((none : Option (List String)).getD defaultChannels ≠ []) ∧
    (daysRange 1 0 = []) ∧
    ((∃ p, run_mmm (fun _ _ _ _ => defaultFitOut) (fun q => q) 0 c5S "r"
      1 0 none "v" = .ok p) ∧
    (daysRange 1 0 = [] →
      run_mmm (fun _ _ _ _ => defaultFitOut) (fun q => q) 0 c5S "r" 1 0
          none "v" =
        .ok (mmmDegRows "r" "v"
            ((none : Option (List String)).getD defaultChannels),
          mmmDegDict "r"
            ((none : Option (List String)).getD defaultChannels)))) :=
  ⟨by decide, by decide,
    c5_degenerate_inputs_no_raise (fun _ _ _ _ => defaultFitOut)
      (fun q => q) 0 c5S "r" 1 0 none "v" (by decide)⟩

/-! ## Claim C6 -/

/-- C6 (amended): on a non-degenerate window with a nonempty channel
list the dict run_mmm returns carries all of coefficients, r2, adj_r2,
mape, vif, elasticities, bootstrap_ci, stability_index and
confidence_score; the degenerate branch omits adj_r2 and mape, see the
counterexample. -/
theorem c6_nondegenerate_keys (fit : FitFn) (sat : ℚ → ℚ) (decay : ℚ)
    (s : Session) (runId : String) (start e : ℕ)
    (copt : Option (List String)) (mv : String)
    (h : copt.getD defaultChannels ≠ [])
    (hdays : daysRange start e ≠ []) :
    ∃ p, run_mmm fit sat decay s runId start e copt mv = .ok p ∧
      ∀ key ∈ (["coefficients", "r2", "adj_r2", "mape", "vif",
        "elasticities", "bootstrap_ci", "stability_index",
        "confidence_score"] : List String),
        (p.2.find? (fun kv => kv.1 = key)).isSome = true := by
  have hst := mmm_hstack_ok sat decay s start e (copt.getD defaultChannels) h
  have hsz := mmm_matrixSize_pos sat decay s start e
    (copt.getD defaultChannels) h hdays
  have hrev : (revSeries s start e (daysRange start e)).length ≠ 0 := by
    rw [revSeries, List.length_map]
    intro hz
    exact hdays (List.length_eq_zero.mp hz)
  refine ⟨(mmmFitRows runId (fit ((copt.getD defaultChannels).map (fun c =>
      (adstock_transform decay (spendSeries (sessionSpendRecs s c) start e
        (daysRange start e))).map sat))
      (revSeries s start e (daysRange start e))
      (copt.getD defaultChannels) mv) (copt.getD defaultChannels),
    mmmFitDict runId (fit ((copt.getD defaultChannels).map (fun c =>
      (adstock_transform decay (spendSeries (sessionSpendRecs s c) start e
        (daysRange start e))).map sat))
      (revSeries s start e (daysRange start e))
      (copt.getD defaultChannels) mv)), ?_, ?_⟩
  · simp only [run_mmm]
    rw [hst]
    simp only
    rw [if_neg (by push_neg; exact ⟨hsz, hrev⟩)]
  · intro key hkey
    fin_cases hkey <;> rfl

/-- C6 as stated is false on the degenerate branch: the returned dict
has no adj_r2 and no mape key. -/
theorem c6_degenerate_missing_keys_counterexample :
    ∃ p, run_mmm (fun _ _ _ _ => defaultFitOut) (fun q => q) 0 c5S "r"
        1 0 none "v" = .ok p ∧
      p.2.find? (fun kv => kv.1 = "adj_r2") = none ∧
      p.2.find? (fun kv => kv.1 = "mape") = none ∧
      (p.2.find? (fun kv => kv.1 = "coefficients")).isSome = true :=
  ⟨_, rfl, rfl, rfl, rfl⟩

theorem c6_nondegenerate_keys_witness :
    ((none : Option (List String)).getD defaultChannels ≠ []) ∧
    (daysRange 0 0 ≠ []) ∧
    (∃ p, run_mmm (fun _ _ _ _ => defaultFitOut) (fun q => q) 0 c5S "r"
        0 0 none "v" = .ok p ∧
      ∀ key ∈ (["coefficients", "r2", "adj_r2", "mape", "vif",
        "elasticities", "bootstrap_ci", "stability_index",
        "confidence_score"] : List String),
        (p.2.find? (fun kv => kv.1 = key)).isSome = true) :=
  ⟨by decide, by decide,
    c6_nondegenerate_keys (fun _ _ _ _ => defaultFitOut) (fun q => q) 0
      c5S "r" 0 0 none "v" (by decide) (by decide)⟩

/-! ## Claim C9: the adstock transform over the reals -/

theorem getLast?_cons_ne_nil {α : Type} (a : α) (l : List α) (h : l ≠ []) :
    (a :: l).getLast? = l.getLast? := by
  cases l with
  | nil => exact absurd rfl h
  | cons b bs => rw [List.getLast?_cons_cons]

theorem adstockFrom_getD_zero (d prev : ℝ) (l : List ℝ) (h : l ≠ []) :
    (adstockFrom d prev l).getD 0 0 = l.getD 0 0 + d * prev := by
  cases l with
  | nil => exact absurd rfl h
  | cons x xs => rfl

theorem adstockFrom_getD_succ (d : ℝ) (l : List ℝ) :
    ∀ (prev : ℝ) (t : ℕ), t + 1 < l.length →
      (adstockFrom d prev l).getD (t+1) 0 =
        l.getD (t+1) 0 + d * (adstockFrom d prev l).getD t 0 := by
  induction l with
  | nil => intro prev t ht; simp at ht
  | cons x xs ih =>
    intro prev t ht
    rw [adstockFrom]
    cases t with
    | zero =>
      have hxs : xs ≠ [] := by
        intro heq
        rw [heq] at ht
        simp at ht
      show (adstockFrom d (x + d*prev) xs).getD 0 0 =
        xs.getD 0 0 + d * (x + d * prev)
      exact adstockFrom_getD_zero d (x + d*prev) xs hxs
    | succ t' =>
      show (adstockFrom d (x + d*prev) xs).getD (t'+1) 0 =
        xs.getD (t'+1) 0 + d * (adstockFrom d (x + d*prev) xs).getD t' 0
      exact ih (x + d*prev) t' (by rw [List.length_cons] at ht; omega)

theorem adstockFrom_replicate_getLast (d S : ℝ) :
    ∀ (n : ℕ) (prev : ℝ),
      (adstockFrom d prev (List.replicate (n+1) S)).getLast? =
        some (S * (∑ i ∈ Finset.range (n+1), d^i) + d^(n+1) * prev) := by
  intro n
  induction n with
  | zero =>
    intro prev
    rw [show List.replicate 1 S = [S] from rfl, adstockFrom, adstockFrom]
    rw [List.getLast?_singleton]
    rw [Finset.sum_range_one]
    congr 1
    ring
  | succ n ih =>
    intro prev
    rw [show List.replicate (n+2) S = S :: List.replicate (n+1) S from rfl,
      adstockFrom]
    have hne : adstockFrom d (S + d * prev) (List.replicate (n+1) S) ≠ [] := by
      intro heq
      have := adstockFrom_length d (List.replicate (n+1) S) (S + d * prev)
      rw [heq, List.length_replicate] at this
      simp at this
    rw [getLast?_cons_ne_nil _ _ hne, ih (S + d * prev)]
    congr 1
    conv_rhs => rw [Finset.sum_range_succ]
    ring

theorem geom_closed_form (d : ℝ) (hd : d ≠ 1) (N : ℕ) :
    ∑ i ∈ Finset.range N, d^i = (1 - d^N)/(1 - d) := by
  rw [geom_sum_eq hd, ← neg_sub (d^N) 1, ← neg_sub d 1, neg_div_neg_eq]

/-- C9: with decay = 0.5^(1/half_life) for a positive half-life, the
decay lies in [0,1); the adstock output obeys adstocked[t] = spend[t] +
decay * adstocked[t-1] (with adstocked[-1] = 0); for constant spend S
over N+1 days the adstocked value on the last day is
S * (1 - decay^(N+1)) / (1 - decay); and that closed form tends to
S / (1 - decay) = S / (1 - 0.5^(1/half_life)) as the horizon grows. -/
theorem c9_adstock_recurrence_and_limit (h : ℝ) (hh : 0 < h) :
    (0 ≤ (1/2 : ℝ) ^ ((1:ℝ)/h) ∧ (1/2 : ℝ) ^ ((1:ℝ)/h) < 1) ∧
    (∀ spend : List ℝ,
      (spend ≠ [] →
        (adstock_transform ((1/2 : ℝ) ^ ((1:ℝ)/h)) spend).getD 0 0 =
          spend.getD 0 0) ∧
      (∀ t : ℕ, t + 1 < spend.length →
        (adstock_transform ((1/2 : ℝ) ^ ((1:ℝ)/h)) spend).getD (t+1) 0 =
          spend.getD (t+1) 0 + ((1/2 : ℝ) ^ ((1:ℝ)/h)) *
            (adstock_transform ((1/2 : ℝ) ^ ((1:ℝ)/h)) spend).getD t 0)) ∧
    (∀ (S : ℝ) (N : ℕ),
      (adstock_transform ((1/2 : ℝ) ^ ((1:ℝ)/h))
          (List.replicate (N+1) S)).getLast? =
        some (S * (1 - ((1/2 : ℝ) ^ ((1:ℝ)/h))^(N+1)) /
          (1 - (1/2 : ℝ) ^ ((1:ℝ)/h)))) ∧
    (∀ S : ℝ, Filter.Tendsto
      (fun N : ℕ => S * (1 - ((1/2 : ℝ) ^ ((1:ℝ)/h))^N) /
        (1 - (1/2 : ℝ) ^ ((1:ℝ)/h)))
      Filter.atTop
      (nhds (S / (1 - (1/2 : ℝ) ^ ((1:ℝ)/h))))) := by
  have hd0 : (0:ℝ) ≤ (1/2 : ℝ) ^ ((1:ℝ)/h) :=
    Real.rpow_nonneg (by norm_num) _
  have hd1 : (1/2 : ℝ) ^ ((1:ℝ)/h) < 1 :=
    Real.rpow_lt_one (by norm_num) (by norm_num) (one_div_pos.mpr hh)
  have hdne : (1/2 : ℝ) ^ ((1:ℝ)/h) ≠ 1 := ne_of_lt hd1
  refine ⟨⟨hd0, hd1⟩, ?_, ?_, ?_⟩
  · intro spend
    constructor
    · intro hne
      rw [adstock_transform, adstockFrom_getD_zero _ _ _ hne, mul_zero,
        add_zero]
    · intro t ht
      rw [adstock_transform]
      exact adstockFrom_getD_succ _ spend 0 t ht
  · intro S N
    rw [adstock_transform, adstockFrom_replicate_getLast,
      geom_closed_form _ hdne]
    rw [mul_zero, add_zero, mul_div_assoc]
  · intro S
    have hpow : Filter.Tendsto
        (fun N : ℕ => ((1/2 : ℝ) ^ ((1:ℝ)/h))^N) Filter.atTop (nhds 0) :=
      tendsto_pow_atTop_nhds_zero_of_lt_one hd0 hd1
    have h1 : Filter.Tendsto
        (fun N : ℕ => 1 - ((1/2 : ℝ) ^ ((1:ℝ)/h))^N) Filter.atTop
        (nhds (1 - 0)) := tendsto_const_nhds.sub hpow
    have h2 : Filter.Tendsto
        (fun N : ℕ => S * (1 - ((1/2 : ℝ) ^ ((1:ℝ)/h))^N)) Filter.atTop
        (nhds (S * (1 - 0))) := tendsto_const_nhds.mul h1
    have h3 := h2.div_const (1 - (1/2 : ℝ) ^ ((1:ℝ)/h))
    simpa using h3

theorem c9_adstock_recurrence_and_limit_witness :
    (0 < (1:ℝ)) ∧
    ((0 ≤ (1/2 : ℝ) ^ ((1:ℝ)/1) ∧ (1/2 : ℝ) ^ ((1:ℝ)/1) < 1) ∧
    (∀ spend : List ℝ,
      (spend ≠ [] →
        (adstock_transform ((1/2 : ℝ) ^ ((1:ℝ)/1)) spend).getD 0 0 =
          spend.getD 0 0) ∧
      (∀ t : ℕ, t + 1 < spend.length →
        (adstock_transform ((1/2 : ℝ) ^ ((1:ℝ)/1)) spend).getD (t+1) 0 =
          spend.getD (t+1) 0 + ((1/2 : ℝ) ^ ((1:ℝ)/1)) *
            (adstock_transform ((1/2 : ℝ) ^ ((1:ℝ)/1)) spend).getD t 0)) ∧
    (∀ (S : ℝ) (N : ℕ),
      (adstock_transform ((1/2 : ℝ) ^ ((1:ℝ)/1))
          (List.replicate (N+1) S)).getLast? =
        some (S * (1 - ((1/2 : ℝ) ^ ((1:ℝ)/1))^(N+1)) /
          (1 - (1/2 : ℝ) ^ ((1:ℝ)/1)))) ∧
    (∀ S : ℝ, Filter.Tendsto
      (fun N : ℕ => S * (1 - ((1/2 : ℝ) ^ ((1:ℝ)/1))^N) /
        (1 - (1/2 : ℝ) ^ ((1:ℝ)/1)))
      Filter.atTop
      (nhds (S / (1 - (1/2 : ℝ) ^ ((1:ℝ)/1)))))) :=
  ⟨by norm_num, c9_adstock_recurrence_and_limit 1 (by norm_num)⟩

end Hypeon
